import Mathlib

/-!
Verification development for the landing-page feature-preparation pipeline
(`train-model.py`): a shallow embedding of the fit-time cleaning/imputation
routine `clean_and_impute`, the sample-weight construction, and the
inference-time routines `apply_basic_imputation_for_inference` and
`predict_vcvr_from_features`, together with theorems settling the frozen
behavioural claims.

Data frames are modelled column-wise: each column carries a name, a
numeric-dtype flag, and a list of optional rational values (`none` models a
missing value / NaN).  Machine floats are modelled as rationals; the one
irrational quantity (the square root inside sample weights) is kept symbolic
in a `WeightTerm` record and interpreted into the reals only for the
statements that need it.
-/

instance {ε α : Type} [DecidableEq ε] [DecidableEq α] : DecidableEq (Except ε α) := fun a b =>
  match a, b with
  | .ok x, .ok y =>
    if h : x = y then .isTrue (congrArg Except.ok h)
    else .isFalse (fun hh => h (Except.ok.inj hh))
  | .error x, .error y =>
    if h : x = y then .isTrue (congrArg Except.error h)
    else .isFalse (fun hh => h (Except.error.inj hh))
  | .ok _, .error _ => .isFalse (fun hh => Except.noConfusion hh)
  | .error _, .ok _ => .isFalse (fun hh => Except.noConfusion hh)

/-- A cell value: `none` models a missing value (NaN). -/
abbrev Val := Option ℚ

/-- A data-frame column: name, numeric-dtype flag, and the cell values. -/
structure Col where
  name : String
  numeric : Bool
  vals : List Val
deriving DecidableEq, Repr

/-- A data frame, stored column-wise with an explicit row count. -/
structure Frame where
  nrows : ℕ
  cols : List Col
deriving DecidableEq, Repr

/-- Well-formedness: every column has exactly `nrows` cells. -/
def Frame.WF (f : Frame) : Prop := ∀ c ∈ f.cols, c.vals.length = f.nrows

instance (f : Frame) : Decidable f.WF := by
  unfold Frame.WF; infer_instance

/-- The column names of a frame, in order. -/
def Frame.names (f : Frame) : List String := f.cols.map Col.name

/-- Look up a column by name (first match, as in pandas with unique labels). -/
def Frame.getCol? (f : Frame) (n : String) : Option Col :=
  f.cols.find? (fun c => c.name == n)

/-- Column-presence test, modelling `n in df.columns`. -/
def Frame.hasCol (f : Frame) (n : String) : Bool := (f.getCol? n).isSome

/-- The values of a named column (empty when the column is absent). -/
def Frame.getVals (f : Frame) (n : String) : List Val :=
  match f.getCol? n with
  | some c => c.vals
  | none => []

/-- `df[n] = series`: overwrite the column in place if present, else append. -/
def Frame.setCol (f : Frame) (n : String) (nb : Bool) (vs : List Val) : Frame :=
  if f.hasCol n then
    { f with cols := f.cols.map fun c => if c.name = n then ⟨n, nb, vs⟩ else c }
  else
    { f with cols := f.cols ++ [⟨n, nb, vs⟩] }

/-- Transform the values of the named column, keeping its dtype flag. -/
def Frame.mapColVals (f : Frame) (n : String) (g : List Val → List Val) : Frame :=
  { f with cols := f.cols.map fun c => if c.name = n then { c with vals := g c.vals } else c }

/-- `df.drop(columns=ns)`: remove every column whose name is listed. -/
def Frame.dropCols (f : Frame) (ns : List String) : Frame :=
  { f with cols := f.cols.filter fun c => !ns.contains c.name }

/-- `df.select_dtypes(include=[np.number])`: keep numeric columns only. -/
def Frame.selectNumeric (f : Frame) : Frame :=
  { f with cols := f.cols.filter fun c => c.numeric }

/-- Keep the entries of `vs` whose mask bit is `true` (boolean row filter). -/
def maskFilter : List Val → List Bool → List Val
  | [], _ => []
  | _ :: _, [] => []
  | v :: vs, b :: bs => if b then v :: maskFilter vs bs else maskFilter vs bs

/-- `df[mask]`: keep the rows whose mask bit is `true`. -/
def Frame.filterMask (f : Frame) (m : List Bool) : Frame :=
  { nrows := m.countP (fun b => b)
    cols := f.cols.map fun c => { c with vals := maskFilter c.vals m } }

/-- Number of missing values in a column, `series.isnull().sum()`. -/
def countNone (vs : List Val) : ℕ := vs.countP (fun v => v.isNone)

/-- `series.fillna(0)`. -/
def fillna0 (vs : List Val) : List Val := vs.map fun v => some (v.getD 0)

/-- `series.fillna(q)`. -/
def fillnaConst (q : ℚ) (vs : List Val) : List Val := vs.map fun v => some (v.getD q)

/-- Fill with an optional value: filling with NaN (`none`) changes nothing. -/
def fillnaOpt (m : Option ℚ) (vs : List Val) : List Val :=
  match m with
  | none => vs
  | some q => fillnaConst q vs

/-- `df.fillna(0)` over a whole frame. -/
def Frame.fillAll0 (f : Frame) : Frame :=
  { f with cols := f.cols.map fun c => { c with vals := fillna0 c.vals } }

/-- Insertion into a sorted list, for the median computation. -/
def insertSorted (x : ℚ) : List ℚ → List ℚ
  | [] => [x]
  | y :: ys => if x ≤ y then x :: y :: ys else y :: insertSorted x ys

/-- Ascending insertion sort on rationals. -/
def sortQ (l : List ℚ) : List ℚ := l.foldr insertSorted []

/-- Pandas `series.median()` over the non-null values: middle element for odd
length, mean of the two middle elements for even length, NaN (`none`) when
there is no data. -/
def medianQ (l : List ℚ) : Option ℚ :=
  let s := sortQ l
  let n := s.length
  if n = 0 then none
  else if n % 2 = 1 then some (s.getD (n / 2) 0)
  else some ((s.getD (n / 2 - 1) 0 + s.getD (n / 2) 0) / 2)

/-- Pandas `series.mean()` over the non-null values (NaN when empty). -/
def meanQ (l : List ℚ) : Option ℚ :=
  if l.length = 0 then none else some (l.sum / (l.length : ℚ))

/- ## Constants from the source configuration block -/

def TARGET_COL : String := "VCVR"

def ID_COLS : List String := ["URL"]

def INTERNAL_FLAG_COL : String := "IsInternal"

/- ## Fit-time pipeline: `clean_and_impute` -/

/-- Failure modes of fit: a missing target column (raised as `ValueError` by
`load_data`/`KeyError` in `clean_and_impute`), and the unbound `cat_stats`
reference hit when `RANK` is present but `Category` is absent (the category
merge statement sits outside the `if "Category"` guard). -/
inductive FitErr where
  | noTarget : FitErr
  | catStatsUnbound : FitErr
deriving DecidableEq, Repr

/-- The `imputation_info` dictionary assembled during fit. -/
structure ImputationInfo where
  zero_cols : List String
  median_cols : List (String × Option ℚ)
  dropped_cols : List String
  sentinel_cols : List (String × ℚ)
deriving DecidableEq, Repr

/-- One sample weight, kept symbolic: the weight's value is
`Real.sqrt radicand * mult`.  The radicand is the clipped Clicks value (or 1
when the Clicks column is absent, since `sqrt 1 = 1` matches the uniform base
weight `np.ones`). -/
structure WeightTerm where
  radicand : ℚ
  mult : ℚ
deriving DecidableEq, Repr

/-- The real value of a sample weight. -/
noncomputable def WeightTerm.val (w : WeightTerm) : ℝ :=
  Real.sqrt (w.radicand : ℝ) * (w.mult : ℝ)

/-- The result of `clean_and_impute`: the prepared matrix `X`, the target `y`,
the imputation metadata, and the sample weights (`none` is a NaN weight).
`dfPrune` and `dfFinal` record the intermediate frames at the column-pruning
step and after pruning (the frame the weight code reads), and `warnRows` is
the row count printed by the final `WARNING` check (a warning is emitted iff
it is positive). -/
structure FitResult where
  X : Frame
  y : List Val
  info : ImputationInfo
  weights : List (Option WeightTerm)
  dfPrune : Frame
  dfFinal : Frame
  warnRows : ℕ
deriving DecidableEq, Repr

/-- Step 2 of `clean_and_impute`: create the `RANK_missing` 0/1 indicator from
the null mask of `RANK`, then fill missing `RANK` values with the sentinel −1. -/
def rankStage (df1 : Frame) : Frame :=
  let rk := df1.getVals "RANK"
  let dfa := df1.setCol "RANK_missing" true
    (rk.map fun v => some (if v.isNone then 1 else 0))
  dfa.mapColVals "RANK" (List.map fun v => some (v.getD (-1)))

/-- Target values of the rows whose category equals `k` and whose target is
non-null: the group `groupby("Category")[TARGET_COL]` selects for key `k`. -/
def groupTargets (cat : List Val) (tgt : List Val) (k : ℚ) : List ℚ :=
  (cat.zip tgt).filterMap fun p => if p.1 = some k then p.2 else none

/-- The category-stats block: per-category mean/median/count of the target,
left-merged back onto every row by category key (a row with a null category
matches no group and receives NaN statistics; `count` counts non-null
targets in the group). -/
def addCatStats (df : Frame) : Frame :=
  let cat := df.getVals "Category"
  let tgt := df.getVals TARGET_COL
  let d1 := df.setCol "cat_mean_vcvr" true
    (cat.map fun v => v.bind fun k => meanQ (groupTargets cat tgt k))
  let d2 := d1.setCol "cat_median_vcvr" true
    (cat.map fun v => v.bind fun k => medianQ (groupTargets cat tgt k))
  d2.setCol "cat_count" true
    (cat.map fun v => v.map fun k => ((groupTargets cat tgt k).length : ℚ))

/-- Steps 2–2b of `clean_and_impute` (the `if "RANK" in df.columns` block):
sentinel handling for `RANK`, then the category-stats merge.  The merge
statement is outside the `if "Category"` guard but inside the `RANK` guard, so
`RANK` present without `Category` hits the unbound local `cat_stats`. -/
def prepStage (df1 : Frame) : Except FitErr (Frame × List (String × ℚ)) :=
  if df1.hasCol "RANK" then
    if (rankStage df1).hasCol "Category" then
      .ok (addCatStats (rankStage df1), [("RANK", -1)])
    else .error .catStatsUnbound
  else .ok (df1, [])

/-- Step 3 of `clean_and_impute`: the names of the columns to drop — every
column except the target, `RANK`, and `RANK_missing` whose missing fraction
strictly exceeds 0.40 (`count/len > 2/5`, i.e. `2·len < 5·count`; an empty
column has NaN missing ratio and is never dropped, matching `NaN > 0.40`
being false). -/
def pruneList (f : Frame) : List String :=
  f.cols.filterMap fun c =>
    if c.name = TARGET_COL ∨ c.name = "RANK" ∨ c.name = "RANK_missing" then none
    else if 2 * c.vals.length < 5 * countNone c.vals then some c.name else none

/-- Whether `pat` matches at the head of the second list. -/
def leadMatch : List Char → List Char → Bool
  | [], _ => true
  | _ :: _, [] => false
  | a :: as, b :: bs => a == b && leadMatch as bs

/-- Whether `pat` occurs as a contiguous sublist (`pat in s` on strings). -/
def subMatch (pat : List Char) : List Char → Bool
  | [] => leadMatch pat []
  | c :: rest => leadMatch pat (c :: rest) || subMatch pat rest

/-- `s.upper()` as a character list. -/
def upChars (s : String) : List Char := s.data.map Char.toUpper

/-- Name heuristic of step 6: count/ratio/percent-like columns are zero-filled
(`"COUNT" in col.upper() or "RATIO" in col.upper() or "PERCENT" in col.upper()`). -/
def nameLooksZeroFill (n : String) : Bool :=
  subMatch "COUNT".data (upChars n) || subMatch "RATIO".data (upChars n) ||
    subMatch "PERCENT".data (upChars n)

/-- Whether generic imputation acts on a column: it skips the special columns
`RANK`/`RANK_missing` and any nonempty column without missing values
(`col_missing == 0`; an empty column has NaN missing mean, which compares
unequal to 0, so the code falls through to the fill branch). -/
def colNeedsImpute (c : Col) : Bool :=
  !(c.name = "RANK" || c.name = "RANK_missing") &&
    !(c.vals.length != 0 && countNone c.vals = 0)

/-- Step 6 of `clean_and_impute`, per column: zero-fill count/ratio/percent-like
columns, median-fill the rest with the column's own median.  Each column's
decision reads only that column, so the loop over `num_cols` acts columnwise. -/
def imputeCol (c : Col) : Col :=
  if colNeedsImpute c then
    if nameLooksZeroFill c.name then { c with vals := fillna0 c.vals }
    else { c with vals := fillnaOpt (medianQ (c.vals.filterMap id)) c.vals }
  else c

/-- The imputed feature matrix. -/
def imputeFrame (f : Frame) : Frame := { f with cols := f.cols.map imputeCol }

/-- The `zero_cols` list recorded by the imputation loop, in column order. -/
def zeroColsOf (f : Frame) : List String :=
  f.cols.filterMap fun c =>
    if colNeedsImpute c && nameLooksZeroFill c.name then some c.name else none

/-- The `median_cols` map recorded by the imputation loop, in column order
(the recorded value is the column's median over its non-null values; `none`
models the float NaN recorded for an all-null/empty column). -/
def medianColsOf (f : Frame) : List (String × Option ℚ) :=
  f.cols.filterMap fun c =>
    if colNeedsImpute c && !nameLooksZeroFill c.name then
      some (c.name, medianQ (c.vals.filterMap id))
    else none

/-- Whether row `i` of the feature matrix still has a missing value. -/
def rowHasNone (f : Frame) (i : ℕ) : Bool :=
  f.cols.any fun c => (c.vals.getD i (some 0)).isNone

/-- `feature_df.isnull().any(axis=1).sum()`: rows with residual missing values. -/
def countBadRows (f : Frame) : ℕ :=
  (List.range f.nrows).countP fun i => rowHasNone f i

/-- Step 8 of `clean_and_impute`: sample weights from the post-pruning frame.
Base: `sqrt(clip(clip(Clicks, lower=1), upper=1000))` — a missing Clicks value
stays NaN through both clips and the square root, giving a NaN weight; with no
Clicks column the base is `np.ones`, represented as radicand 1.  Multiplier:
2.0 where the internal flag (after `fillna(0)`) is non-zero, else 1.0; with no
flag column the multiplier is 1.0. -/
def weightsOf (df3 : Frame) : List (Option WeightTerm) :=
  let base : List (Option ℚ) :=
    if df3.hasCol "Clicks" then
      (df3.getVals "Clicks").map (Option.map fun x => min (max x 1) 1000)
    else List.replicate df3.nrows (some 1)
  let mult : List ℚ :=
    if df3.hasCol INTERNAL_FLAG_COL then
      (df3.getVals INTERNAL_FLAG_COL).map fun v => if v.getD 0 = 0 then 1 else 2
    else List.replicate df3.nrows 1
  List.zipWith (fun b m => b.map fun r => WeightTerm.mk r m) base mult

/-- Steps 3–8 of `clean_and_impute`: pruning, target/ID split, numeric
restriction, generic imputation, the final NaN check (a printed warning, not
an exception), and the sample weights. -/
def finishFit (df2 : Frame) (sents : List (String × ℚ)) : FitResult :=
  let dropped := pruneList df2
  let df3 := df2.dropCols dropped
  let fdf := (df3.dropCols (ID_COLS ++ [TARGET_COL])).selectNumeric
  let X := imputeFrame fdf
  { X := X
    y := df3.getVals TARGET_COL
    info :=
      { zero_cols := zeroColsOf fdf
        median_cols := medianColsOf fdf
        dropped_cols := dropped
        sentinel_cols := sents }
    weights := weightsOf df3
    dfPrune := df2
    dfFinal := df3
    warnRows := countBadRows X }

/-- The fit-time pipeline `clean_and_impute(df)`: drop rows with missing
target, run the RANK/category stage, then pruning, imputation and weights. -/
def clean_and_impute (df0 : Frame) : Except FitErr FitResult :=
  if df0.hasCol TARGET_COL then
    let df1 := df0.filterMask ((df0.getVals TARGET_COL).map Option.isSome)
    (prepStage df1).map fun p => finishFit p.1 p.2
  else .error .noTarget

/- ## Inference-time pipeline -/

/-- The persisted bundle: regressor (modelled as a per-row function on the
fixed-shape row, NaN-tolerant as XGBoost is), the frozen feature-column order,
and the optional imputation metadata (`payload.get` yields `none` for bundles
without it). -/
structure Bundle where
  model : List Val → ℚ
  feature_columns : List String
  imputation_info : Option ImputationInfo

/-- `apply_basic_imputation_for_inference`: with no plan, fill every gap with 0
(no warning is printed on this path); with a plan, zero-fill the stored
`zero_cols` that are present, fill stored medians for the `median_cols` that
are present, then fill anything still missing with 0. -/
def apply_basic_imputation_for_inference (f : Frame) (info : Option ImputationInfo) : Frame :=
  match info with
  | none => f.fillAll0
  | some ii =>
    let f1 := ii.zero_cols.foldl
      (fun g c => if g.hasCol c then g.mapColVals c fillna0 else g) f
    let f2 := ii.median_cols.foldl
      (fun g p => if g.hasCol p.1 then g.mapColVals p.1 (fillnaOpt p.2) else g) f1
    f2.fillAll0

/-- `df.reindex(columns=names, fill_value=0.0)`: the result has exactly the
requested columns in the requested order; absent ones are created filled
with 0. -/
def Frame.reindexCols (f : Frame) (ns : List String) : Frame :=
  { nrows := f.nrows
    cols := ns.map fun n =>
      match f.getCol? n with
      | some c => c
      | none => ⟨n, true, List.replicate f.nrows (some 0)⟩ }

/-- Row `i` of a frame, in column order. -/
def Frame.row (f : Frame) (i : ℕ) : List Val :=
  f.cols.map fun c => c.vals.getD i none

/-- The outcome of `predict_vcvr_from_features`: the fixed-shape matrix handed
to the regressor, the predictions, and the count of expected feature columns
missing from the (numeric, imputed) input — the only warning this path
prints, emitted iff the count is positive. -/
structure PredictResult where
  X : Frame
  preds : List ℚ
  warnCount : ℕ
deriving DecidableEq, Repr

/-- `predict_vcvr_from_features`: numeric restriction, plan replay, reindex to
the frozen column order, then one model invocation per row. -/
def predict_vcvr_from_features (b : Bundle) (features : Frame) : PredictResult :=
  let fnum := features.selectNumeric
  let fimp := apply_basic_imputation_for_inference fnum b.imputation_info
  let X := fimp.reindexCols b.feature_columns
  { X := X
    preds := (List.range X.nrows).map fun i => b.model (X.row i)
    warnCount := (b.feature_columns.filter fun c => !fimp.hasCol c).length }

example : medianQ [3, 1, 2] = some 2 := by decide
example : medianQ [] = none := by decide
example : nameLooksZeroFill "clicks_count" = true := by decide
example : nameLooksZeroFill "x" = false := by decide

/- ## Basic lemmas about cell-level operations -/

lemma except_map_eq_ok {ε α β : Type} (g : α → β) (e : Except ε α) (b : β) :
    e.map g = .ok b ↔ ∃ a, e = .ok a ∧ b = g a := by
  cases e with
  | error x => simp [Except.map]
  | ok a =>
    simp only [Except.map]
    constructor
    · intro h; exact ⟨a, rfl, (Except.ok.inj h).symm⟩
    · rintro ⟨a2, ha, hb⟩
      cases Except.ok.inj ha
      rw [hb]

lemma fillna0_length (vs : List Val) : (fillna0 vs).length = vs.length := by
  simp [fillna0]

lemma fillnaConst_length (q : ℚ) (vs : List Val) :
    (fillnaConst q vs).length = vs.length := by
  simp [fillnaConst]

lemma fillnaOpt_length (m : Option ℚ) (vs : List Val) :
    (fillnaOpt m vs).length = vs.length := by
  cases m with
  | none => rfl
  | some q => simp [fillnaOpt, fillnaConst_length]

lemma countNone_fillna0 (vs : List Val) : countNone (fillna0 vs) = 0 := by
  induction vs with
  | nil => rfl
  | cons v vs ih =>
    have : countNone (fillna0 (v :: vs)) = countNone (fillna0 vs) := by
      simp [countNone, fillna0, List.countP_cons]
    rw [this, ih]

lemma countNone_fillnaConst (q : ℚ) (vs : List Val) :
    countNone (fillnaConst q vs) = 0 := by
  induction vs with
  | nil => rfl
  | cons v vs ih =>
    have : countNone (fillnaConst q (v :: vs)) = countNone (fillnaConst q vs) := by
      simp [countNone, fillnaConst, List.countP_cons]
    rw [this, ih]

lemma fillna0_of_countNone_zero (vs : List Val) (h : countNone vs = 0) :
    fillna0 vs = vs := by
  induction vs with
  | nil => rfl
  | cons v vs ih =>
    simp only [countNone, List.countP_cons] at h
    cases v with
    | none => simp at h
    | some q =>
      simp only [Option.isNone_some, Bool.false_eq_true, if_false, Nat.add_zero] at h
      show some q :: fillna0 vs = some q :: vs
      rw [ih h]

lemma fillna0_idem (vs : List Val) : fillna0 (fillna0 vs) = fillna0 vs :=
  fillna0_of_countNone_zero _ (countNone_fillna0 vs)

lemma filterMap_id_length (vs : List Val) :
    (vs.filterMap id).length + countNone vs = vs.length := by
  induction vs with
  | nil => rfl
  | cons v vs ih =>
    cases v with
    | none => simp [countNone, List.countP_cons] at ih ⊢; omega
    | some q => simp [countNone, List.countP_cons] at ih ⊢; omega

lemma insertSorted_length (x : ℚ) (l : List ℚ) :
    (insertSorted x l).length = l.length + 1 := by
  induction l with
  | nil => rfl
  | cons y ys ih =>
    by_cases h : x ≤ y <;> simp [insertSorted, h, ih]

lemma sortQ_length (l : List ℚ) : (sortQ l).length = l.length := by
  induction l with
  | nil => rfl
  | cons x xs ih => simp [sortQ, insertSorted_length] at ih ⊢; omega

lemma medianQ_isSome (l : List ℚ) (h : l ≠ []) : (medianQ l).isSome = true := by
  have hl : (sortQ l).length ≠ 0 := by
    rw [sortQ_length]; exact fun hc => h (List.length_eq_zero.mp hc)
  unfold medianQ
  simp only []
  rw [if_neg hl]
  by_cases hp : (sortQ l).length % 2 = 1 <;> simp [hp]

lemma countNone_fillnaOpt_some (q : ℚ) (vs : List Val) :
    countNone (fillnaOpt (some q) vs) = 0 := countNone_fillnaConst q vs

/- ## Frame-operation plumbing lemmas -/

lemma getCol?_name (f : Frame) (n : String) (c : Col) (h : f.getCol? n = some c) :
    c.name = n := by
  have hp := List.find?_some h
  exact eq_of_beq hp

lemma getCol?_mem (f : Frame) (n : String) (c : Col) (h : f.getCol? n = some c) :
    c ∈ f.cols :=
  List.mem_of_find?_eq_some h

lemma find?_name_map (g : Col → Col) (hg : ∀ c, (g c).name = c.name)
    (l : List Col) (m : String) :
    ((l.map g).find? fun c => c.name == m) = (l.find? fun c => c.name == m).map g := by
  induction l with
  | nil => rfl
  | cons a l ih =>
    by_cases hm : a.name = m
    · simp [List.find?_cons, hg, hm]
    · have h1 : ((g a).name == m) = false := by simp [hg, hm]
      have h2 : (a.name == m) = false := by simp [hm]
      simp only [List.map_cons, List.find?_cons, h1, h2, ih]

lemma getCol?_mapColVals (f : Frame) (n m : String) (g : List Val → List Val) :
    (f.mapColVals n g).getCol? m =
      (f.getCol? m).map fun c => if c.name = n then { c with vals := g c.vals } else c :=
  find?_name_map _ (fun c => by by_cases h : c.name = n <;> simp [h]) f.cols m

lemma getVals_mapColVals_other (f : Frame) (n m : String) (g : List Val → List Val)
    (h : m ≠ n) : (f.mapColVals n g).getVals m = f.getVals m := by
  unfold Frame.getVals
  rw [getCol?_mapColVals]
  cases hc : f.getCol? m with
  | none => rfl
  | some c =>
    have : c.name ≠ n := by rw [getCol?_name f m c hc]; exact h
    simp [this]

lemma getVals_mapColVals_self (f : Frame) (n : String) (g : List Val → List Val)
    (h : f.hasCol n = true) : (f.mapColVals n g).getVals n = g (f.getVals n) := by
  unfold Frame.hasCol at h
  cases hc : f.getCol? n with
  | none => rw [hc] at h; simp at h
  | some c =>
    have hn : c.name = n := getCol?_name f n c hc
    unfold Frame.getVals
    rw [getCol?_mapColVals, hc]
    simp [hn]

lemma hasCol_mapColVals (f : Frame) (n m : String) (g : List Val → List Val) :
    (f.mapColVals n g).hasCol m = f.hasCol m := by
  unfold Frame.hasCol
  rw [getCol?_mapColVals]
  cases f.getCol? m <;> rfl

lemma getCol?_filterMask (f : Frame) (m : String) (mask : List Bool) :
    (f.filterMask mask).getCol? m =
      (f.getCol? m).map fun c => { c with vals := maskFilter c.vals mask } :=
  find?_name_map (fun c => { c with vals := maskFilter c.vals mask }) (fun _ => rfl) f.cols m

lemma getVals_filterMask (f : Frame) (m : String) (mask : List Bool)
    (h : f.hasCol m = true) :
    (f.filterMask mask).getVals m = maskFilter (f.getVals m) mask := by
  unfold Frame.hasCol at h
  cases hc : f.getCol? m with
  | none => rw [hc] at h; simp at h
  | some c =>
    unfold Frame.getVals
    rw [getCol?_filterMask, hc]
    rfl

lemma hasCol_filterMask (f : Frame) (m : String) (mask : List Bool) :
    (f.filterMask mask).hasCol m = f.hasCol m := by
  unfold Frame.hasCol
  rw [getCol?_filterMask]
  cases f.getCol? m <;> rfl

lemma find?_set_name (l : List Col) (n : String) (nb : Bool) (vs : List Val)
    (h : (l.find? fun c => c.name == n).isSome = true) :
    ((l.map fun c => if c.name = n then (⟨n, nb, vs⟩ : Col) else c).find?
      fun c => c.name == n) = some ⟨n, nb, vs⟩ := by
  induction l with
  | nil => simp [List.find?] at h
  | cons a l ih =>
    by_cases hn : a.name = n
    · simp [List.find?_cons, hn]
    · have h1 : (a.name == n) = false := by simp [hn]
      simp only [List.map_cons, if_neg hn, List.find?_cons, h1] at h ⊢
      exact ih h

lemma find?_set_other (l : List Col) (n : String) (nb : Bool) (vs : List Val)
    (m : String) (h : m ≠ n) :
    ((l.map fun c => if c.name = n then (⟨n, nb, vs⟩ : Col) else c).find?
      fun c => c.name == m) = l.find? fun c => c.name == m := by
  induction l with
  | nil => rfl
  | cons a l ih =>
    by_cases hn : a.name = n
    · have h1 : ((⟨n, nb, vs⟩ : Col).name == m) = false := by simp [h.symm]
      have h2 : (a.name == m) = false := by rw [hn]; simp [h.symm]
      simp only [List.map_cons, if_pos hn, List.find?_cons, h1, h2, ih]
    · simp only [List.map_cons, if_neg hn, List.find?_cons]
      by_cases hm : a.name = m
      · simp [hm]
      · have h2 : (a.name == m) = false := by simp [hm]
        simp only [h2, ih]

lemma getCol?_setCol_self (f : Frame) (n : String) (nb : Bool) (vs : List Val) :
    (f.setCol n nb vs).getCol? n = some ⟨n, nb, vs⟩ := by
  unfold Frame.setCol
  by_cases h : f.hasCol n = true
  · rw [if_pos h]
    exact find?_set_name f.cols n nb vs h
  · rw [if_neg h]
    unfold Frame.getCol?
    rw [List.find?_append]
    have h0 : f.getCol? n = none := by
      unfold Frame.hasCol at h
      cases hc : f.getCol? n with
      | none => rfl
      | some c => rw [hc] at h; simp at h
    unfold Frame.getCol? at h0
    simp [h0]

lemma getCol?_setCol_other (f : Frame) (n : String) (nb : Bool) (vs : List Val)
    (m : String) (h : m ≠ n) :
    (f.setCol n nb vs).getCol? m = f.getCol? m := by
  unfold Frame.setCol
  by_cases hp : f.hasCol n = true
  · rw [if_pos hp]
    exact find?_set_other f.cols n nb vs m h
  · rw [if_neg hp]
    unfold Frame.getCol?
    rw [List.find?_append]
    have h1 : (([⟨n, nb, vs⟩] : List Col).find? fun c => c.name == m) = none := by
      have hne : (n == m) = false := by
        have h2 := Ne.symm h
        simp [h2]
      simp [List.find?, hne]
    cases hc : (f.cols.find? fun c => c.name == m) <;> simp [h1]

lemma getVals_setCol_self (f : Frame) (n : String) (nb : Bool) (vs : List Val) :
    (f.setCol n nb vs).getVals n = vs := by
  unfold Frame.getVals
  rw [getCol?_setCol_self]

lemma getVals_setCol_other (f : Frame) (n : String) (nb : Bool) (vs : List Val)
    (m : String) (h : m ≠ n) : (f.setCol n nb vs).getVals m = f.getVals m := by
  unfold Frame.getVals
  rw [getCol?_setCol_other f n nb vs m h]

lemma hasCol_setCol_other (f : Frame) (n : String) (nb : Bool) (vs : List Val)
    (m : String) (h : m ≠ n) : (f.setCol n nb vs).hasCol m = f.hasCol m := by
  unfold Frame.hasCol
  rw [getCol?_setCol_other f n nb vs m h]

lemma getCol?_dropCols_not_mem (f : Frame) (ns : List String) (m : String)
    (h : ns.contains m = false) : (f.dropCols ns).getCol? m = f.getCol? m := by
  have hm : ∀ a : Col, ns.contains a.name = true → (a.name == m) = false := by
    intro a hk
    have hne : a.name ≠ m := by
      intro he; rw [he, h] at hk; cases hk
    simp [hne]
  unfold Frame.dropCols Frame.getCol?
  induction f.cols with
  | nil => rfl
  | cons a l ih =>
    cases hk : ns.contains a.name with
    | true =>
      simp only [List.filter_cons, hk, Bool.not_true, Bool.false_eq_true, if_false]
      rw [List.find?_cons_of_neg _ (by simp [hm a hk]), ih]
    | false =>
      simp only [List.filter_cons, hk, Bool.not_false, if_true]
      rw [List.find?_cons, List.find?_cons]
      cases hp : (a.name == m) with
      | true => rfl
      | false => exact ih

lemma find?_filter_numeric (l : List Col) (m : String) (c : Col)
    (h : (l.find? fun c => c.name == m) = some c) (hc : c.numeric = true) :
    ((l.filter fun c => c.numeric).find? fun c => c.name == m) = some c := by
  induction l with
  | nil => cases h
  | cons a l ih =>
    rw [List.find?_cons] at h
    rw [List.filter_cons]
    cases hp : (a.name == m) with
    | true =>
      rw [hp] at h
      have ha : a = c := Option.some.inj h
      subst ha
      rw [hc]
      simp only [if_true]
      rw [List.find?_cons, hp]
    | false =>
      rw [hp] at h
      cases hn : a.numeric with
      | true =>
        simp only [hn, if_true]
        rw [List.find?_cons, hp]
        exact ih h
      | false =>
        simp only [hn, Bool.false_eq_true, if_false]
        exact ih h

lemma getCol?_selectNumeric_of_numeric (f : Frame) (m : String) (c : Col)
    (h : f.getCol? m = some c) (hc : c.numeric = true) :
    f.selectNumeric.getCol? m = some c := by
  unfold Frame.selectNumeric Frame.getCol? at *
  exact find?_filter_numeric f.cols m c h hc

lemma getCol?_fillAll0 (f : Frame) (m : String) :
    f.fillAll0.getCol? m = (f.getCol? m).map fun c => { c with vals := fillna0 c.vals } :=
  find?_name_map (fun c => { c with vals := fillna0 c.vals }) (fun _ => rfl) f.cols m

lemma getVals_fillAll0 (f : Frame) (m : String) (h : f.hasCol m = true) :
    f.fillAll0.getVals m = fillna0 (f.getVals m) := by
  unfold Frame.hasCol at h
  cases hc : f.getCol? m with
  | none => rw [hc] at h; simp at h
  | some c =>
    unfold Frame.getVals
    rw [getCol?_fillAll0, hc]
    rfl

lemma hasCol_fillAll0 (f : Frame) (m : String) : f.fillAll0.hasCol m = f.hasCol m := by
  unfold Frame.hasCol
  rw [getCol?_fillAll0]
  cases f.getCol? m <;> rfl

lemma imputeCol_name (c : Col) : (imputeCol c).name = c.name := by
  unfold imputeCol
  by_cases h : colNeedsImpute c = true
  · rw [if_pos h]
    by_cases h2 : nameLooksZeroFill c.name = true
    · rw [if_pos h2]
    · rw [if_neg h2]
  · rw [if_neg h]

lemma imputeCol_numeric (c : Col) : (imputeCol c).numeric = c.numeric := by
  unfold imputeCol
  by_cases h : colNeedsImpute c = true
  · rw [if_pos h]
    by_cases h2 : nameLooksZeroFill c.name = true
    · rw [if_pos h2]
    · rw [if_neg h2]
  · rw [if_neg h]

lemma imputeCol_length (c : Col) : (imputeCol c).vals.length = c.vals.length := by
  unfold imputeCol
  by_cases h : colNeedsImpute c = true
  · rw [if_pos h]
    by_cases h2 : nameLooksZeroFill c.name = true
    · rw [if_pos h2]; exact fillna0_length c.vals
    · rw [if_neg h2]; exact fillnaOpt_length _ c.vals
  · rw [if_neg h]

lemma getCol?_imputeFrame (f : Frame) (m : String) :
    (imputeFrame f).getCol? m = (f.getCol? m).map imputeCol :=
  find?_name_map imputeCol imputeCol_name f.cols m

lemma mem_names_of_getCol? (f : Frame) (m : String) (c : Col)
    (h : f.getCol? m = some c) : m ∈ f.names := by
  have hmem := getCol?_mem f m c h
  have hname := getCol?_name f m c h
  unfold Frame.names
  rw [← hname]
  exact List.mem_map_of_mem Col.name hmem

/- ## Row-count bookkeeping -/

lemma nrows_setCol (f : Frame) (n : String) (nb : Bool) (vs : List Val) :
    (f.setCol n nb vs).nrows = f.nrows := by
  unfold Frame.setCol
  by_cases h : f.hasCol n = true
  · rw [if_pos h]
  · rw [if_neg h]

lemma nrows_rankStage (f : Frame) : (rankStage f).nrows = f.nrows := by
  unfold rankStage Frame.mapColVals
  simp only [nrows_setCol]

lemma nrows_addCatStats (f : Frame) : (addCatStats f).nrows = f.nrows := by
  unfold addCatStats
  simp only [nrows_setCol]

lemma nrows_dropCols (f : Frame) (ns : List String) : (f.dropCols ns).nrows = f.nrows := rfl

lemma nrows_selectNumeric (f : Frame) : f.selectNumeric.nrows = f.nrows := rfl

lemma nrows_imputeFrame (f : Frame) : (imputeFrame f).nrows = f.nrows := rfl

/- ## Well-formedness preservation -/

lemma getVals_length_of_WF (f : Frame) (n : String) (h : f.WF)
    (hc : f.hasCol n = true) : (f.getVals n).length = f.nrows := by
  unfold Frame.hasCol at hc
  cases hg : f.getCol? n with
  | none => rw [hg] at hc; simp at hc
  | some c =>
    unfold Frame.getVals
    rw [hg]
    exact h c (getCol?_mem f n c hg)

lemma maskFilter_length (vs : List Val) (m : List Bool) (h : vs.length = m.length) :
    (maskFilter vs m).length = m.countP (fun b => b) := by
  induction vs generalizing m with
  | nil =>
    cases m with
    | nil => rfl
    | cons b bs => cases h
  | cons v vs ih =>
    cases m with
    | nil => cases h
    | cons b bs =>
      have h2 : vs.length = bs.length := by
        simpa using h
      cases b with
      | true =>
        show (v :: maskFilter vs bs).length = List.countP (fun b => b) (true :: bs)
        rw [List.countP_cons]
        simp [ih bs h2]
      | false =>
        show (maskFilter vs bs).length = List.countP (fun b => b) (false :: bs)
        rw [List.countP_cons]
        simp [ih bs h2]

lemma WF_filterMask (f : Frame) (m : List Bool) (h : f.WF) (hm : m.length = f.nrows) :
    (f.filterMask m).WF := by
  intro c hc
  unfold Frame.filterMask at hc
  simp only [List.mem_map] at hc
  obtain ⟨c0, hc0, hceq⟩ := hc
  rw [← hceq]
  show (maskFilter c0.vals m).length = m.countP fun b => b
  exact maskFilter_length c0.vals m (by rw [h c0 hc0, hm])

lemma WF_setCol (f : Frame) (n : String) (nb : Bool) (vs : List Val)
    (h : f.WF) (hv : vs.length = f.nrows) : (f.setCol n nb vs).WF := by
  intro c hc
  rw [nrows_setCol]
  unfold Frame.setCol at hc
  by_cases hp : f.hasCol n = true
  · rw [if_pos hp] at hc
    simp only [List.mem_map] at hc
    obtain ⟨c0, hc0, hceq⟩ := hc
    by_cases he : c0.name = n
    · rw [if_pos he] at hceq
      rw [← hceq]
      exact hv
    · rw [if_neg he] at hceq
      rw [← hceq]
      exact h c0 hc0
  · rw [if_neg hp] at hc
    simp only [List.mem_append, List.mem_singleton] at hc
    cases hc with
    | inl hc0 => exact h c hc0
    | inr hc0 => rw [hc0]; exact hv

lemma WF_mapColVals (f : Frame) (n : String) (g : List Val → List Val)
    (h : f.WF) (hg : ∀ vs, (g vs).length = vs.length) : (f.mapColVals n g).WF := by
  intro c hc
  unfold Frame.mapColVals at hc
  simp only [List.mem_map] at hc
  obtain ⟨c0, hc0, hceq⟩ := hc
  show c.vals.length = f.nrows
  by_cases he : c0.name = n
  · rw [if_pos he] at hceq
    rw [← hceq]
    show (g c0.vals).length = f.nrows
    rw [hg c0.vals]
    exact h c0 hc0
  · rw [if_neg he] at hceq
    rw [← hceq]
    exact h c0 hc0

lemma WF_dropCols (f : Frame) (ns : List String) (h : f.WF) : (f.dropCols ns).WF := by
  intro c hc
  exact h c (List.mem_of_mem_filter hc)

lemma WF_selectNumeric (f : Frame) (h : f.WF) : f.selectNumeric.WF := by
  intro c hc
  exact h c (List.mem_of_mem_filter hc)

lemma WF_fillAll0 (f : Frame) (h : f.WF) : f.fillAll0.WF := by
  intro c hc
  unfold Frame.fillAll0 at hc
  simp only [List.mem_map] at hc
  obtain ⟨c0, hc0, hceq⟩ := hc
  rw [← hceq]
  show (fillna0 c0.vals).length = f.nrows
  rw [fillna0_length]
  exact h c0 hc0

lemma WF_imputeFrame (f : Frame) (h : f.WF) : (imputeFrame f).WF := by
  intro c hc
  unfold imputeFrame at hc
  simp only [List.mem_map] at hc
  obtain ⟨c0, hc0, hceq⟩ := hc
  rw [← hceq]
  show (imputeCol c0).vals.length = f.nrows
  rw [imputeCol_length]
  exact h c0 hc0

lemma WF_rankStage (f : Frame) (h : f.WF) (hr : f.hasCol "RANK" = true) :
    (rankStage f).WF := by
  unfold rankStage
  apply WF_mapColVals
  · apply WF_setCol
    · exact h
    · rw [List.length_map]
      exact getVals_length_of_WF f "RANK" h hr
  · intro vs
    exact List.length_map vs _

lemma WF_addCatStats (f : Frame) (h : f.WF) (hc : f.hasCol "Category" = true) :
    (addCatStats f).WF := by
  have hlen : (f.getVals "Category").length = f.nrows :=
    getVals_length_of_WF f "Category" h hc
  unfold addCatStats
  apply WF_setCol
  · apply WF_setCol
    · apply WF_setCol
      · exact h
      · rw [List.length_map]; exact hlen
    · rw [List.length_map, nrows_setCol]; exact hlen
  · rw [List.length_map, nrows_setCol, nrows_setCol]; exact hlen

lemma WF_reindexCols (f : Frame) (ns : List String) (h : f.WF) :
    (f.reindexCols ns).WF := by
  intro c hc
  unfold Frame.reindexCols at hc
  simp only [List.mem_map] at hc
  obtain ⟨n, _, hceq⟩ := hc
  show c.vals.length = f.nrows
  rw [← hceq]
  cases hg : f.getCol? n with
  | some c0 =>
    simp only [hg]
    exact h c0 (getCol?_mem f n c0 hg)
  | none =>
    simp only [hg]
    exact List.length_replicate f.nrows (some 0)

/- ## Structure of a successful fit -/

lemma finishFit_X (df2 : Frame) (s : List (String × ℚ)) :
    (finishFit df2 s).X =
      imputeFrame (((df2.dropCols (pruneList df2)).dropCols
        (ID_COLS ++ [TARGET_COL])).selectNumeric) := rfl

lemma finishFit_info (df2 : Frame) (s : List (String × ℚ)) :
    (finishFit df2 s).info =
      { zero_cols := zeroColsOf (((df2.dropCols (pruneList df2)).dropCols
          (ID_COLS ++ [TARGET_COL])).selectNumeric)
        median_cols := medianColsOf (((df2.dropCols (pruneList df2)).dropCols
          (ID_COLS ++ [TARGET_COL])).selectNumeric)
        dropped_cols := pruneList df2
        sentinel_cols := s } := rfl

lemma finishFit_warnRows (df2 : Frame) (s : List (String × ℚ)) :
    (finishFit df2 s).warnRows = countBadRows (finishFit df2 s).X := rfl

lemma finishFit_weights (df2 : Frame) (s : List (String × ℚ)) :
    (finishFit df2 s).weights = weightsOf (df2.dropCols (pruneList df2)) := rfl

lemma finishFit_dfPrune (df2 : Frame) (s : List (String × ℚ)) :
    (finishFit df2 s).dfPrune = df2 := rfl

lemma finishFit_dfFinal (df2 : Frame) (s : List (String × ℚ)) :
    (finishFit df2 s).dfFinal = df2.dropCols (pruneList df2) := rfl

lemma finishFit_y (df2 : Frame) (s : List (String × ℚ)) :
    (finishFit df2 s).y = (df2.dropCols (pruneList df2)).getVals TARGET_COL := rfl

lemma fit_ok_iff (df0 : Frame) (r : FitResult) :
    clean_and_impute df0 = .ok r ↔
      df0.hasCol TARGET_COL = true ∧
      ∃ p, prepStage (df0.filterMask ((df0.getVals TARGET_COL).map Option.isSome)) = .ok p ∧
        r = finishFit p.1 p.2 := by
  unfold clean_and_impute
  by_cases h : df0.hasCol TARGET_COL = true
  · rw [if_pos h, except_map_eq_ok]
    constructor
    · rintro ⟨p, hp, hr⟩
      exact ⟨h, p, hp, hr⟩
    · rintro ⟨-, p, hp, hr⟩
      exact ⟨p, hp, hr⟩
  · rw [if_neg h]
    constructor
    · intro hc; cases hc
    · rintro ⟨hc, -⟩
      exact absurd hc h

lemma prepStage_ok (df1 : Frame) (p : Frame × List (String × ℚ))
    (h : prepStage df1 = .ok p) :
    (df1.hasCol "RANK" = false ∧ p = (df1, [])) ∨
    (df1.hasCol "RANK" = true ∧ (rankStage df1).hasCol "Category" = true ∧
      p = (addCatStats (rankStage df1), [("RANK", -1)])) := by
  unfold prepStage at h
  by_cases hr : df1.hasCol "RANK" = true
  · rw [if_pos hr] at h
    by_cases hc : (rankStage df1).hasCol "Category" = true
    · rw [if_pos hc] at h
      right
      exact ⟨hr, hc, (Except.ok.inj h).symm⟩
    · rw [if_neg hc] at h
      cases h
  · rw [if_neg hr] at h
    refine Or.inl ⟨?_, (Except.ok.inj h).symm⟩
    revert hr
    cases df1.hasCol "RANK" <;> simp

/- ## Generic imputation removes every fillable gap -/

lemma countNone_imputeCol (c : Col)
    (h1 : c.name ≠ "RANK") (h2 : c.name ≠ "RANK_missing")
    (hkeep : ¬ 2 * c.vals.length < 5 * countNone c.vals) :
    countNone (imputeCol c).vals = 0 := by
  unfold imputeCol
  cases hn : colNeedsImpute c with
  | false =>
    simp only [Bool.false_eq_true, if_false]
    unfold colNeedsImpute at hn
    simp only [h1, h2] at hn
    have hb : (c.vals.length != 0 && decide (countNone c.vals = 0)) = true := by
      revert hn
      cases c.vals.length != 0 && decide (countNone c.vals = 0) <;> simp
    rw [Bool.and_eq_true] at hb
    obtain ⟨-, hcnt⟩ := hb
    simpa using hcnt
  | true =>
    simp only [if_true]
    by_cases hz : nameLooksZeroFill c.name = true
    · rw [if_pos hz]
      exact countNone_fillna0 c.vals
    · rw [if_neg hz]
      cases hv : c.vals with
      | nil => rfl
      | cons v vs =>
        have hne : c.vals ≠ [] := by rw [hv]; exact List.cons_ne_nil v vs
        have hcnt : countNone c.vals ≠ 0 := by
          unfold colNeedsImpute at hn
          simp only [h1, h2] at hn
          intro hc0
          have hlen : c.vals.length ≠ 0 := by rw [hv]; simp
          simp [hlen, hc0] at hn
        have hlt : countNone c.vals < c.vals.length := by omega
        have hfm : (c.vals.filterMap id).length ≠ 0 := by
          have := filterMap_id_length c.vals
          omega
        have hfm2 : c.vals.filterMap id ≠ [] := by
          intro hc0
          rw [hc0] at hfm
          exact hfm rfl
        have hms := medianQ_isSome (c.vals.filterMap id) hfm2
        cases hmq : medianQ (c.vals.filterMap id) with
        | none => rw [hmq] at hms; cases hms
        | some q =>
          rw [← hv, hmq]
          exact countNone_fillnaConst q c.vals

lemma pruneList_mem_intro (f : Frame) (c : Col) (hc : c ∈ f.cols)
    (h1 : c.name ≠ TARGET_COL) (h2 : c.name ≠ "RANK") (h3 : c.name ≠ "RANK_missing")
    (hfrac : 2 * c.vals.length < 5 * countNone c.vals) :
    c.name ∈ pruneList f := by
  unfold pruneList
  rw [List.mem_filterMap]
  refine ⟨c, hc, ?_⟩
  rw [if_neg (by simp [h1, h2, h3]), if_pos hfrac]

lemma cols_dropCols (f : Frame) (ns : List String) :
    (f.dropCols ns).cols = f.cols.filter fun c => !ns.contains c.name := rfl

lemma cols_selectNumeric (f : Frame) :
    f.selectNumeric.cols = f.cols.filter fun c => c.numeric := rfl

lemma finishFit_X_mem (df2 : Frame) (s : List (String × ℚ)) (c : Col)
    (hc : c ∈ (finishFit df2 s).X.cols) :
    ∃ c0 ∈ df2.cols, c = imputeCol c0 ∧
      c0.name ∉ pruneList df2 ∧
      c0.name ∉ ID_COLS ++ [TARGET_COL] ∧ c0.numeric = true := by
  rw [finishFit_X] at hc
  unfold imputeFrame at hc
  simp only [List.mem_map, cols_selectNumeric, cols_dropCols] at hc
  obtain ⟨c0, hc0, hceq⟩ := hc
  obtain ⟨hc1, hnum⟩ := List.mem_filter.mp hc0
  obtain ⟨hc2, hid⟩ := List.mem_filter.mp hc1
  obtain ⟨hc3, hpr⟩ := List.mem_filter.mp hc2
  refine ⟨c0, hc3, hceq.symm, ?_, ?_, hnum⟩
  · simpa using hpr
  · simpa using hid

/-- C1 counterexample input: one accepted row, a numeric input column literally
named `RANK_missing` holding a missing value, and no `RANK` column. -/
def C1ds : Frame := ⟨1, [⟨"VCVR", true, [some 1]⟩, ⟨"RANK_missing", true, [none]⟩]⟩

/-- C1 counterexample: `clean_and_impute` accepts `C1ds` and returns normally,
yet the returned feature matrix still contains a missing value — fit does not
fail fatally (no `ImputationIncompleteError` is raised anywhere), and the
returned matrix is not free of missing values; the code only records a warning
row count. -/
theorem C1_counterexample :
    (clean_and_impute C1ds).isOk = true ∧
    (clean_and_impute C1ds).map (fun r => countNone (r.X.getVals "RANK_missing")) =
      .ok 1 ∧
    (clean_and_impute C1ds).map (fun r => r.warnRows) = .ok 1 := by
  refine ⟨by decide, by decide, by decide⟩

/-- C1 (amended): if missing values survive fit-time imputation,
`clean_and_impute` emits a warning whose row count is exactly the number of
rows of the prepared matrix still holding a missing value, and it still
returns the (incomplete) matrix rather than raising; residual missing values
are possible only in columns named `RANK` or `RANK_missing` (the fixed names
generic imputation skips), every other retained column is fully imputed. -/
theorem C1_fit_warns_and_returns : ∀ (df0 : Frame) (r : FitResult),
    clean_and_impute df0 = .ok r →
    r.warnRows = countBadRows r.X ∧
    ∀ c ∈ r.X.cols, 0 < countNone c.vals →
      c.name = "RANK" ∨ c.name = "RANK_missing" := by
  intro df0 r h
  rw [fit_ok_iff] at h
  obtain ⟨-, p, -, hr⟩ := h
  subst hr
  refine ⟨finishFit_warnRows p.1 p.2, ?_⟩
  intro c hc hcnt
  by_contra hcon
  push_neg at hcon
  obtain ⟨hr1, hr2⟩ := hcon
  obtain ⟨c0, hc0, hceq, hnp, hni, -⟩ := finishFit_X_mem p.1 p.2 c hc
  have hname : c.name = c0.name := by rw [hceq]; exact imputeCol_name c0
  have h1 : c0.name ≠ TARGET_COL := by
    intro he
    exact hni (by rw [he]; simp [ID_COLS])
  have hr1b : c0.name ≠ "RANK" := fun he => hr1 (by rw [hname, he])
  have hr2b : c0.name ≠ "RANK_missing" := fun he => hr2 (by rw [hname, he])
  have hfr : ¬ 2 * c0.vals.length < 5 * countNone c0.vals := by
    intro hlt
    exact hnp (pruneList_mem_intro p.1 c0 hc0 h1 hr1b hr2b hlt)
  have hzero := countNone_imputeCol c0 hr1b hr2b hfr
  rw [hceq] at hcnt
  omega

/-- C1 witness: the amended theorem applied to the concrete counterexample
dataset. -/
theorem C1_witness :
    (clean_and_impute C1ds).map (fun r => decide (r.warnRows = countBadRows r.X)) =
      .ok true ∧
    (clean_and_impute C1ds).map (fun r => decide (∀ c ∈ r.X.cols,
      0 < countNone c.vals → c.name = "RANK" ∨ c.name = "RANK_missing")) = .ok true := by
  have hok : (clean_and_impute C1ds).isOk = true := by decide
  cases h : clean_and_impute C1ds with
  | error e => rw [h] at hok; cases hok
  | ok r =>
    obtain ⟨h1, h2⟩ := C1_fit_warns_and_returns C1ds r h
    constructor
    · show Except.ok (decide (r.warnRows = countBadRows r.X)) = Except.ok true
      rw [decide_eq_true h1]
    · show Except.ok (decide (∀ c ∈ r.X.cols,
        0 < countNone c.vals → c.name = "RANK" ∨ c.name = "RANK_missing")) = Except.ok true
      rw [decide_eq_true h2]

/-- C2 failing input: a dataset with a present target and a `RANK` column but
no `Category` column. -/
def C2ds : Frame := ⟨2, [⟨"VCVR", true, [some 1, some 2]⟩,
  ⟨"RANK", true, [some 3, none]⟩, ⟨"Clicks", true, [some 10, some 20]⟩]⟩

/-- C2: on a dataset that has a `RANK` column but no `Category` column, fit
does not complete — the category merge statement references the local
`cat_stats`, which is unbound because its defining block is guarded by the
`Category` check while the merge is not (a `NameError` at run time).  This
contradicts the claim that the absence of any optional column never raises. -/
theorem C2_rank_without_category_raises :
    clean_and_impute C2ds = .error .catStatsUnbound := by decide

/-- C3 failing input: `Category` present, `RANK` absent. -/
def C3ds : Frame := ⟨3, [⟨"VCVR", true, [some 1, some 2, some 4]⟩,
  ⟨"Category", false, [some 1, some 1, some 2]⟩,
  ⟨"Clicks", true, [some 5, some 6, some 7]⟩]⟩

/-- The same dataset with a `RANK` column added. -/
def C3dsWithRank : Frame := ⟨3, [⟨"VCVR", true, [some 1, some 2, some 4]⟩,
  ⟨"Category", false, [some 1, some 1, some 2]⟩,
  ⟨"Clicks", true, [some 5, some 6, some 7]⟩, ⟨"RANK", true, [some 9, some 8, none]⟩]⟩

/-- C3: the category-stats block is nested inside the `RANK` guard, so a
dataset with `Category` present but `RANK` absent is NOT enriched (fit
completes with no `cat_mean_vcvr`/`cat_median_vcvr`/`cat_count` columns),
while adding a `RANK` column to the same data produces the enrichment —
the presence of the category column is not the only condition. -/
theorem C3_category_without_rank_not_enriched :
    (clean_and_impute C3ds).isOk = true ∧
    (clean_and_impute C3ds).map (fun r => r.X.names) = .ok ["Clicks"] ∧
    (clean_and_impute C3ds).map (fun r => decide ("cat_mean_vcvr" ∈ r.X.names ∨
      "cat_median_vcvr" ∈ r.X.names ∨ "cat_count" ∈ r.X.names)) = .ok false ∧
    (clean_and_impute C3dsWithRank).map (fun r => decide ("cat_mean_vcvr" ∈ r.X.names ∧
      "cat_median_vcvr" ∈ r.X.names ∧ "cat_count" ∈ r.X.names)) = .ok true := by
  refine ⟨by decide, by decide, by decide, by decide⟩

/- ## Inference-side plumbing -/

lemma names_mapColVals (f : Frame) (n : String) (g : List Val → List Val) :
    (f.mapColVals n g).names = f.names := by
  unfold Frame.mapColVals Frame.names
  rw [List.map_map]
  apply List.map_congr_left
  intro c _
  show (if c.name = n then { c with vals := g c.vals } else c).name = c.name
  by_cases h : c.name = n <;> simp [h]

lemma names_fillAll0 (f : Frame) : f.fillAll0.names = f.names := by
  unfold Frame.fillAll0 Frame.names
  rw [List.map_map]
  apply List.map_congr_left
  intro c _
  rfl

lemma nrows_mapColVals (f : Frame) (n : String) (g : List Val → List Val) :
    (f.mapColVals n g).nrows = f.nrows := rfl

lemma nrows_fillAll0 (f : Frame) : f.fillAll0.nrows = f.nrows := rfl

lemma nrows_zeroFold (cs : List String) (f : Frame) :
    (cs.foldl (fun g c => if g.hasCol c then g.mapColVals c fillna0 else g) f).nrows =
      f.nrows := by
  induction cs generalizing f with
  | nil => rfl
  | cons c cs ih =>
    rw [List.foldl_cons, ih]
    by_cases hc : f.hasCol c = true
    · rw [if_pos hc]; rfl
    · rw [if_neg hc]

lemma nrows_medFold (ps : List (String × Option ℚ)) (f : Frame) :
    (ps.foldl (fun g p => if g.hasCol p.1 then g.mapColVals p.1 (fillnaOpt p.2) else g)
      f).nrows = f.nrows := by
  induction ps generalizing f with
  | nil => rfl
  | cons p ps ih =>
    rw [List.foldl_cons, ih]
    by_cases hc : f.hasCol p.1 = true
    · rw [if_pos hc]; rfl
    · rw [if_neg hc]

lemma nrows_apply_basic (f : Frame) (i : Option ImputationInfo) :
    (apply_basic_imputation_for_inference f i).nrows = f.nrows := by
  cases i with
  | none => rfl
  | some ii =>
    show ((ImputationInfo.median_cols ii).foldl _ ((ImputationInfo.zero_cols ii).foldl _ f)).fillAll0.nrows = f.nrows
    rw [nrows_fillAll0, nrows_medFold, nrows_zeroFold]

lemma hasCol_zeroFold (cs : List String) (f : Frame) (m : String) :
    (cs.foldl (fun g c => if g.hasCol c then g.mapColVals c fillna0 else g) f).hasCol m =
      f.hasCol m := by
  induction cs generalizing f with
  | nil => rfl
  | cons c cs ih =>
    rw [List.foldl_cons, ih]
    by_cases hc : f.hasCol c = true
    · rw [if_pos hc, hasCol_mapColVals]
    · rw [if_neg hc]

lemma hasCol_medFold (ps : List (String × Option ℚ)) (f : Frame) (m : String) :
    (ps.foldl (fun g p => if g.hasCol p.1 then g.mapColVals p.1 (fillnaOpt p.2) else g)
      f).hasCol m = f.hasCol m := by
  induction ps generalizing f with
  | nil => rfl
  | cons p ps ih =>
    rw [List.foldl_cons, ih]
    by_cases hc : f.hasCol p.1 = true
    · rw [if_pos hc, hasCol_mapColVals]
    · rw [if_neg hc]

lemma hasCol_apply_basic (f : Frame) (i : Option ImputationInfo) (m : String) :
    (apply_basic_imputation_for_inference f i).hasCol m = f.hasCol m := by
  cases i with
  | none => exact hasCol_fillAll0 f m
  | some ii =>
    show ((ImputationInfo.median_cols ii).foldl _ ((ImputationInfo.zero_cols ii).foldl _ f)).fillAll0.hasCol m = f.hasCol m
    rw [hasCol_fillAll0, hasCol_medFold, hasCol_zeroFold]

lemma getVals_zeroFold_not_mem (cs : List String) (f : Frame) (m : String) (h : m ∉ cs) :
    (cs.foldl (fun g c => if g.hasCol c then g.mapColVals c fillna0 else g) f).getVals m =
      f.getVals m := by
  induction cs generalizing f with
  | nil => rfl
  | cons c cs ih =>
    have hne : m ≠ c := fun he => h (he ▸ List.mem_cons_self c cs)
    have hm2 : m ∉ cs := fun hmem => h (List.mem_cons_of_mem c hmem)
    rw [List.foldl_cons, ih _ hm2]
    by_cases hc : f.hasCol c = true
    · rw [if_pos hc]
      exact getVals_mapColVals_other f c m fillna0 hne
    · rw [if_neg hc]

lemma getVals_medFold_not_mem (ps : List (String × Option ℚ)) (f : Frame) (m : String)
    (h : ∀ p ∈ ps, p.1 ≠ m) :
    (ps.foldl (fun g p => if g.hasCol p.1 then g.mapColVals p.1 (fillnaOpt p.2) else g)
      f).getVals m = f.getVals m := by
  induction ps generalizing f with
  | nil => rfl
  | cons p ps ih =>
    have hne : m ≠ p.1 := fun he => (h p (List.mem_cons_self p ps)) he.symm
    have hm2 : ∀ q ∈ ps, q.1 ≠ m := fun q hq => h q (List.mem_cons_of_mem p hq)
    rw [List.foldl_cons, ih _ hm2]
    by_cases hc : f.hasCol p.1 = true
    · rw [if_pos hc]
      exact getVals_mapColVals_other f p.1 m (fillnaOpt p.2) hne
    · rw [if_neg hc]

lemma getVals_zeroFold_mem (cs : List String) (f : Frame) (m : String)
    (hmem : m ∈ cs) (hcol : f.hasCol m = true) :
    (cs.foldl (fun g c => if g.hasCol c then g.mapColVals c fillna0 else g) f).getVals m =
      fillna0 (f.getVals m) := by
  induction cs generalizing f with
  | nil => cases hmem
  | cons c cs ih =>
    rw [List.foldl_cons]
    by_cases hce : c = m
    · subst hce
      rw [if_pos hcol]
      have hv : (f.mapColVals c fillna0).getVals c = fillna0 (f.getVals c) :=
        getVals_mapColVals_self f c fillna0 hcol
      by_cases hmem2 : c ∈ cs
      · rw [ih _ hmem2 (by rw [hasCol_mapColVals]; exact hcol), hv, fillna0_idem]
      · rw [getVals_zeroFold_not_mem cs _ c hmem2, hv]
    · have hmem2 : m ∈ cs := by
        cases List.mem_cons.mp hmem with
        | inl he => exact absurd he.symm hce
        | inr hmm => exact hmm
      by_cases hc : f.hasCol c = true
      · rw [if_pos hc,
          ih _ hmem2 (by rw [hasCol_mapColVals]; exact hcol),
          getVals_mapColVals_other f c m fillna0 (fun he => hce he.symm)]
      · rw [if_neg hc, ih _ hmem2 hcol]

lemma fillnaConst_of_countNone_zero (q : ℚ) (vs : List Val) (h : countNone vs = 0) :
    fillnaConst q vs = vs := by
  induction vs with
  | nil => rfl
  | cons v vs ih =>
    simp only [countNone, List.countP_cons] at h
    cases v with
    | none => simp at h
    | some x =>
      simp only [Option.isNone_some, Bool.false_eq_true, if_false, Nat.add_zero] at h
      show some x :: fillnaConst q vs = some x :: vs
      rw [ih h]

lemma fillnaOpt_of_countNone_zero (mv : Option ℚ) (vs : List Val) (h : countNone vs = 0) :
    fillnaOpt mv vs = vs := by
  cases mv with
  | none => rfl
  | some q => exact fillnaConst_of_countNone_zero q vs h

lemma countNone_fillnaOpt_le (mv : Option ℚ) (vs : List Val) (h : countNone vs = 0) :
    countNone (fillnaOpt mv vs) = 0 := by
  rw [fillnaOpt_of_countNone_zero mv vs h]
  exact h

lemma getVals_medFold_nullfree (ps : List (String × Option ℚ)) (f : Frame) (m : String)
    (h : countNone (f.getVals m) = 0) :
    (ps.foldl (fun g p => if g.hasCol p.1 then g.mapColVals p.1 (fillnaOpt p.2) else g)
      f).getVals m = f.getVals m := by
  induction ps generalizing f with
  | nil => rfl
  | cons p ps ih =>
    rw [List.foldl_cons]
    by_cases hc : f.hasCol p.1 = true
    · rw [if_pos hc]
      by_cases hpe : p.1 = m
      · subst hpe
        have hv : (f.mapColVals p.1 (fillnaOpt p.2)).getVals p.1 =
            fillnaOpt p.2 (f.getVals p.1) :=
          getVals_mapColVals_self f p.1 (fillnaOpt p.2) hc
        have hsame : (f.mapColVals p.1 (fillnaOpt p.2)).getVals p.1 = f.getVals p.1 := by
          rw [hv, fillnaOpt_of_countNone_zero _ _ h]
        have hnull : countNone ((f.mapColVals p.1 (fillnaOpt p.2)).getVals p.1) = 0 := by
          rw [hsame]; exact h
        rw [ih _ hnull, hsame]
      · have hother : (f.mapColVals p.1 (fillnaOpt p.2)).getVals m = f.getVals m :=
          getVals_mapColVals_other f p.1 m (fillnaOpt p.2) (fun he => hpe he.symm)
        have hnull : countNone ((f.mapColVals p.1 (fillnaOpt p.2)).getVals m) = 0 := by
          rw [hother]; exact h
        rw [ih _ hnull, hother]
    · rw [if_neg hc]
      exact ih _ h

lemma getVals_medFold_mem (ps : List (String × Option ℚ)) (f : Frame) (m : String)
    (mv : Option ℚ) (hmem : (m, mv) ∈ ps) (hnd : (ps.map Prod.fst).Nodup)
    (hcol : f.hasCol m = true) :
    (ps.foldl (fun g p => if g.hasCol p.1 then g.mapColVals p.1 (fillnaOpt p.2) else g)
      f).getVals m = fillnaOpt mv (f.getVals m) := by
  induction ps generalizing f with
  | nil => cases hmem
  | cons p ps ih =>
    rw [List.foldl_cons]
    rw [List.map_cons, List.nodup_cons] at hnd
    obtain ⟨hp1, hnd2⟩ := hnd
    by_cases hpe : p.1 = m
    · have hp : p = (m, mv) := by
        cases List.mem_cons.mp hmem with
        | inl he => exact he.symm
        | inr hmm =>
          have h2 : m ∈ ps.map Prod.fst := List.mem_map_of_mem Prod.fst hmm
          rw [hpe] at hp1
          exact absurd h2 hp1
      subst hp
      rw [if_pos hcol]
      have hv : (f.mapColVals m (fillnaOpt mv)).getVals m =
          fillnaOpt mv (f.getVals m) :=
        getVals_mapColVals_self f m (fillnaOpt mv) hcol
      have hrest : ∀ q ∈ ps, q.1 ≠ m := by
        intro q hq he
        apply hp1
        have h2 : q.1 ∈ ps.map Prod.fst := List.mem_map_of_mem Prod.fst hq
        rw [he] at h2
        exact h2
      rw [getVals_medFold_not_mem ps _ m hrest, hv]
    · have hmem2 : (m, mv) ∈ ps := by
        cases List.mem_cons.mp hmem with
        | inl he => exact absurd (congrArg Prod.fst he).symm hpe
        | inr hmm => exact hmm
      by_cases hc : f.hasCol p.1 = true
      · rw [if_pos hc]
        have hcol2 : (f.mapColVals p.1 (fillnaOpt p.2)).hasCol m = true := by
          rw [hasCol_mapColVals]; exact hcol
        have hother : (f.mapColVals p.1 (fillnaOpt p.2)).getVals m = f.getVals m :=
          getVals_mapColVals_other f p.1 m _ (fun he => hpe he.symm)
        rw [ih _ hmem2 hnd2 hcol2, hother]
      · rw [if_neg hc]
        exact ih _ hmem2 hnd2 hcol

lemma reindexCols_names (f : Frame) (ns : List String) : (f.reindexCols ns).names = ns := by
  unfold Frame.reindexCols Frame.names
  show (ns.map _).map Col.name = ns
  rw [List.map_map]
  have hstep : ∀ n ∈ ns, (Col.name ∘ fun n => match f.getCol? n with
      | some c => c
      | none => ⟨n, true, List.replicate f.nrows (some 0)⟩) n = id n := by
    intro n _
    show (match f.getCol? n with
      | some c => c
      | none => (⟨n, true, List.replicate f.nrows (some 0)⟩ : Col)).name = n
    cases hg : f.getCol? n with
    | some c => exact getCol?_name f n c hg
    | none => rfl
  rw [List.map_congr_left hstep, List.map_id]

lemma find?_reindex_list (f : Frame) (ns : List String) (m : String) (hm : m ∈ ns) :
    ((ns.map fun n => match f.getCol? n with
      | some c => c
      | none => (⟨n, true, List.replicate f.nrows (some 0)⟩ : Col)).find?
        fun c => c.name == m) = some (match f.getCol? m with
      | some c => c
      | none => (⟨m, true, List.replicate f.nrows (some 0)⟩ : Col)) := by
  have hpick : ∀ n : String, (match f.getCol? n with
      | some c => c
      | none => (⟨n, true, List.replicate f.nrows (some 0)⟩ : Col)).name = n := by
    intro n
    cases hg : f.getCol? n with
    | some c => exact getCol?_name f n c hg
    | none => rfl
  induction ns with
  | nil => cases hm
  | cons n ns ih =>
    rw [List.map_cons, List.find?_cons]
    by_cases hne : n = m
    · subst hne
      have h1 : ((match f.getCol? n with
          | some c => c
          | none => (⟨n, true, List.replicate f.nrows (some 0)⟩ : Col)).name == n) = true := by
        rw [hpick n]
        simp
      rw [h1]
    · have h1 : ((match f.getCol? n with
          | some c => c
          | none => (⟨n, true, List.replicate f.nrows (some 0)⟩ : Col)).name == m) = false := by
        rw [hpick n]
        simp [hne]
      rw [h1]
      have hm2 : m ∈ ns := by
        cases List.mem_cons.mp hm with
        | inl he => exact absurd he.symm hne
        | inr hmm => exact hmm
      exact ih hm2

lemma getCol?_reindexCols (f : Frame) (ns : List String) (m : String) (hm : m ∈ ns) :
    (f.reindexCols ns).getCol? m = some (match f.getCol? m with
      | some c => c
      | none => ⟨m, true, List.replicate f.nrows (some 0)⟩) :=
  find?_reindex_list f ns m hm

lemma getVals_reindexCols_present (f : Frame) (ns : List String) (m : String)
    (hm : m ∈ ns) (h : f.hasCol m = true) :
    (f.reindexCols ns).getVals m = f.getVals m := by
  unfold Frame.hasCol at h
  cases hg : f.getCol? m with
  | none => rw [hg] at h; simp at h
  | some c =>
    unfold Frame.getVals
    rw [getCol?_reindexCols f ns m hm, hg]

lemma getVals_reindexCols_absent (f : Frame) (ns : List String) (m : String)
    (hm : m ∈ ns) (h : f.hasCol m = false) :
    (f.reindexCols ns).getVals m = List.replicate f.nrows (some 0) := by
  unfold Frame.hasCol at h
  cases hg : f.getCol? m with
  | some c => rw [hg] at h; simp at h
  | none =>
    unfold Frame.getVals
    rw [getCol?_reindexCols f ns m hm, hg]

lemma countNone_replicate_some (n : ℕ) (q : ℚ) :
    countNone (List.replicate n (some q)) = 0 := by
  induction n with
  | zero => rfl
  | succ k ih =>
    rw [List.replicate_succ]
    have h2 : countNone (some q :: List.replicate k (some q)) =
        countNone (List.replicate k (some q)) := by
      simp [countNone, List.countP_cons]
    rw [h2, ih]

lemma countNone_fillAll0_cols (f : Frame) :
    ∀ c ∈ f.fillAll0.cols, countNone c.vals = 0 := by
  intro c hc
  unfold Frame.fillAll0 at hc
  simp only [List.mem_map] at hc
  obtain ⟨c0, -, hceq⟩ := hc
  rw [← hceq]
  exact countNone_fillna0 c0.vals

lemma countNone_apply_basic_cols (f : Frame) (i : Option ImputationInfo) :
    ∀ c ∈ (apply_basic_imputation_for_inference f i).cols, countNone c.vals = 0 := by
  cases i with
  | none => exact countNone_fillAll0_cols f
  | some ii =>
    show ∀ c ∈ (Frame.fillAll0 _).cols, countNone c.vals = 0
    exact countNone_fillAll0_cols _

lemma countNone_reindex_apply_cols (f : Frame) (i : Option ImputationInfo)
    (ns : List String) :
    ∀ c ∈ ((apply_basic_imputation_for_inference f i).reindexCols ns).cols,
      countNone c.vals = 0 := by
  intro c hc
  unfold Frame.reindexCols at hc
  simp only [List.mem_map] at hc
  obtain ⟨n, -, hceq⟩ := hc
  rw [← hceq]
  cases hg : (apply_basic_imputation_for_inference f i).getCol? n with
  | some c0 =>
    simp only [hg]
    exact countNone_apply_basic_cols f i c0
      (getCol?_mem (apply_basic_imputation_for_inference f i) n c0 hg)
  | none =>
    simp only [hg]
    exact countNone_replicate_some _ 0

lemma predict_preds_length (b : Bundle) (f : Frame) :
    (predict_vcvr_from_features b f).preds.length = f.nrows := by
  show ((List.range ((apply_basic_imputation_for_inference f.selectNumeric
    b.imputation_info).reindexCols b.feature_columns).nrows).map _).length = f.nrows
  rw [List.length_map, List.length_range]
  show (apply_basic_imputation_for_inference f.selectNumeric
    b.imputation_info).nrows = f.nrows
  rw [nrows_apply_basic]
  rfl

/-- C6: for every bundle and every input frame, the matrix handed to the
regressor has exactly the bundle's frozen `feature_columns` as its column
list (set and order) — plan columns absent from the input are created filled
with 0 and extra input columns are dropped by the reindex — and `predict`
returns exactly one prediction per input row, in input order. -/
theorem C6_predict_shape : ∀ (b : Bundle) (f : Frame),
    (predict_vcvr_from_features b f).X.names = b.feature_columns ∧
    (predict_vcvr_from_features b f).preds.length = f.nrows := by
  intro b f
  exact ⟨reindexCols_names _ _, predict_preds_length b f⟩

/-- C4 counterexample bundle: no `imputation_info` in the payload. -/
def C4bundle : Bundle := ⟨fun row => (row.getD 0 none).getD 0, ["x"], none⟩

/-- C4 counterexample frame: the expected column is present and has a null. -/
def C4frame : Frame := ⟨2, [⟨"x", true, [none, some 3]⟩]⟩

/-- C4 counterexample: predicting with a bundle whose plan is absent succeeds
and fills the missing value with 0, but the emitted warning count is 0 — no
observability warning is produced for the degraded no-plan mode (the only
warning in `predict_vcvr_from_features` concerns missing feature columns). -/
theorem C4_counterexample :
    (predict_vcvr_from_features C4bundle C4frame).warnCount = 0 ∧
    (predict_vcvr_from_features C4bundle C4frame).X.cols =
      [⟨"x", true, [some 0, some 3]⟩] ∧
    (predict_vcvr_from_features C4bundle C4frame).preds = [0, 3] := by
  refine ⟨by decide, by decide, by decide⟩

/-- C4 (amended): when the loaded bundle has no ImputationPlan, prediction
does not fail — every missing value in the (numeric) input frame is filled
with 0, one prediction per input row is returned, and the matrix handed to
the model holds no missing value — but NO observability warning is emitted
for this degraded mode: the warning count is identical to that of the same
bundle carrying an (empty) plan, counting only missing feature columns. -/
theorem C4_no_plan_degrades : ∀ (b : Bundle) (f : Frame),
    b.imputation_info = none →
    (predict_vcvr_from_features b f).preds.length = f.nrows ∧
    apply_basic_imputation_for_inference f.selectNumeric b.imputation_info =
      f.selectNumeric.fillAll0 ∧
    (∀ c ∈ (predict_vcvr_from_features b f).X.cols, countNone c.vals = 0) ∧
    (predict_vcvr_from_features b f).warnCount =
      (predict_vcvr_from_features ⟨b.model, b.feature_columns, some ⟨[], [], [], []⟩⟩
        f).warnCount := by
  intro b f h
  refine ⟨predict_preds_length b f, ?_, ?_, ?_⟩
  · rw [h]
    rfl
  · intro c hc
    exact countNone_reindex_apply_cols f.selectNumeric b.imputation_info
      b.feature_columns c hc
  · show (b.feature_columns.filter _).length = (b.feature_columns.filter _).length
    congr 1
    apply List.filter_congr
    intro n _
    rw [h]
    show (!(f.selectNumeric.fillAll0).hasCol n) =
      (!(apply_basic_imputation_for_inference f.selectNumeric (some ⟨[], [], [], []⟩)).hasCol n)
    rw [hasCol_fillAll0, hasCol_apply_basic]

/-- C4 witness: the amended theorem applied at the concrete plan-less bundle. -/
theorem C4_witness :
    (predict_vcvr_from_features C4bundle C4frame).preds.length = 2 ∧
    apply_basic_imputation_for_inference C4frame.selectNumeric none =
      C4frame.selectNumeric.fillAll0 ∧
    (predict_vcvr_from_features C4bundle C4frame).warnCount =
      (predict_vcvr_from_features ⟨C4bundle.model, C4bundle.feature_columns,
        some ⟨[], [], [], []⟩⟩ C4frame).warnCount := by
  obtain ⟨h1, h2, h3, h4⟩ := C4_no_plan_degrades C4bundle C4frame rfl
  exact ⟨h1, h2, h4⟩

lemma names_zeroFold (cs : List String) (f : Frame) :
    (cs.foldl (fun g c => if g.hasCol c then g.mapColVals c fillna0 else g) f).names =
      f.names := by
  induction cs generalizing f with
  | nil => rfl
  | cons c cs ih =>
    rw [List.foldl_cons, ih]
    by_cases hc : f.hasCol c = true
    · rw [if_pos hc, names_mapColVals]
    · rw [if_neg hc]

lemma names_medFold (ps : List (String × Option ℚ)) (f : Frame) :
    (ps.foldl (fun g p => if g.hasCol p.1 then g.mapColVals p.1 (fillnaOpt p.2) else g)
      f).names = f.names := by
  induction ps generalizing f with
  | nil => rfl
  | cons p ps ih =>
    rw [List.foldl_cons, ih]
    by_cases hc : f.hasCol p.1 = true
    · rw [if_pos hc, names_mapColVals]
    · rw [if_neg hc]

lemma names_apply_basic (f : Frame) (i : Option ImputationInfo) :
    (apply_basic_imputation_for_inference f i).names = f.names := by
  cases i with
  | none => exact names_fillAll0 f
  | some ii =>
    show ((ImputationInfo.median_cols ii).foldl _
      ((ImputationInfo.zero_cols ii).foldl _ f)).fillAll0.names = f.names
    rw [names_fillAll0, names_medFold, names_zeroFold]

/-- C7: the plan replay of `apply_basic_imputation_for_inference`: each
zero-fill plan column present in the input gets its missing values filled
with 0; each median-fill plan column present (with a stored median value,
under a well-formed plan with distinct keys, the column not being
zero-filled) gets its missing values filled with the stored median; the
column set is unchanged (plan columns absent from the input are skipped
without error); and the replayed frame holds zero residual missing values. -/
theorem C7_plan_replay : ∀ (f : Frame) (ii : ImputationInfo),
    (∀ m ∈ ii.zero_cols, f.hasCol m = true →
      (apply_basic_imputation_for_inference f (some ii)).getVals m =
        fillna0 (f.getVals m)) ∧
    (∀ m q, (m, some q) ∈ ii.median_cols → (ii.median_cols.map Prod.fst).Nodup →
      m ∉ ii.zero_cols → f.hasCol m = true →
      (apply_basic_imputation_for_inference f (some ii)).getVals m =
        fillnaConst q (f.getVals m)) ∧
    (apply_basic_imputation_for_inference f (some ii)).names = f.names ∧
    (∀ c ∈ (apply_basic_imputation_for_inference f (some ii)).cols,
      countNone c.vals = 0) := by
  intro f ii
  refine ⟨?_, ?_, names_apply_basic f (some ii), countNone_apply_basic_cols f (some ii)⟩
  · intro m hmem hcol
    have h1 : ((ii.zero_cols).foldl
        (fun g c => if g.hasCol c then g.mapColVals c fillna0 else g) f).getVals m =
        fillna0 (f.getVals m) :=
      getVals_zeroFold_mem ii.zero_cols f m hmem hcol
    have hc1 : ((ii.zero_cols).foldl
        (fun g c => if g.hasCol c then g.mapColVals c fillna0 else g) f).hasCol m = true := by
      rw [hasCol_zeroFold]; exact hcol
    have hnull : countNone (((ii.zero_cols).foldl
        (fun g c => if g.hasCol c then g.mapColVals c fillna0 else g) f).getVals m) = 0 := by
      rw [h1]; exact countNone_fillna0 _
    have h2 := getVals_medFold_nullfree ii.median_cols _ m hnull
    have hc2 : ((ii.median_cols).foldl
        (fun g p => if g.hasCol p.1 then g.mapColVals p.1 (fillnaOpt p.2) else g)
        ((ii.zero_cols).foldl
          (fun g c => if g.hasCol c then g.mapColVals c fillna0 else g) f)).hasCol m =
        true := by
      rw [hasCol_medFold]; exact hc1
    show (Frame.fillAll0 _).getVals m = fillna0 (f.getVals m)
    rw [getVals_fillAll0 _ m hc2, h2, h1, fillna0_idem]
  · intro m q hmem hnd hnz hcol
    have h1 : ((ii.zero_cols).foldl
        (fun g c => if g.hasCol c then g.mapColVals c fillna0 else g) f).getVals m =
        f.getVals m :=
      getVals_zeroFold_not_mem ii.zero_cols f m hnz
    have hc1 : ((ii.zero_cols).foldl
        (fun g c => if g.hasCol c then g.mapColVals c fillna0 else g) f).hasCol m = true := by
      rw [hasCol_zeroFold]; exact hcol
    have h2 := getVals_medFold_mem ii.median_cols _ m (some q) hmem hnd hc1
    have hc2 : ((ii.median_cols).foldl
        (fun g p => if g.hasCol p.1 then g.mapColVals p.1 (fillnaOpt p.2) else g)
        ((ii.zero_cols).foldl
          (fun g c => if g.hasCol c then g.mapColVals c fillna0 else g) f)).hasCol m =
        true := by
      rw [hasCol_medFold]; exact hc1
    show (Frame.fillAll0 _).getVals m = fillnaConst q (f.getVals m)
    rw [getVals_fillAll0 _ m hc2, h2, h1]
    show fillna0 (fillnaConst q (f.getVals m)) = fillnaConst q (f.getVals m)
    exact fillna0_of_countNone_zero _ (countNone_fillnaConst q _)

/-- C7 witness frame and plan from the claim's concrete instance. -/
def C7info : ImputationInfo := ⟨["clicks_count"], [("x", some 5)], [], []⟩

def C7frame : Frame := ⟨2, [⟨"clicks_count", true, [none, some 3]⟩,
  ⟨"x", true, [some 1, none]⟩]⟩

/-- C7 witness: with zeroFillColumns = {clicks_count} and
medianFillColumns = {x: 5.0}, nulls in those columns become 0 and 5
respectively, with zero residual nulls. -/
theorem C7_witness :
    (apply_basic_imputation_for_inference C7frame (some C7info)).getVals "clicks_count" =
      [some 0, some 3] ∧
    (apply_basic_imputation_for_inference C7frame (some C7info)).getVals "x" =
      [some 1, some 5] ∧
    (∀ c ∈ (apply_basic_imputation_for_inference C7frame (some C7info)).cols,
      countNone c.vals = 0) := by
  obtain ⟨h1, h2, -, h4⟩ := C7_plan_replay C7frame C7info
  refine ⟨?_, ?_, h4⟩
  · rw [h1 "clicks_count" (by decide) (by decide)]
    decide
  · rw [h2 "x" 5 (by decide) (by decide) (by decide) (by decide)]
    decide

/-- C10: sentinel imputation is never replayed at inference.  (a) The replay
reads only the plan's `zero_cols` and `median_cols`: two plans agreeing on
those fields (regardless of `sentinel_cols` / `dropped_cols`) produce the
same imputed frame; (b) when the `RANK_missing` indicator is in the frozen
feature columns but absent from the numeric input, the reindex creates it as
an all-zero column, so every row looks "not missing"; (c) a `RANK` column
without zero/median plan entries has its missing values filled with the
last-resort 0 — not the training sentinel −1. -/
theorem C10_sentinels_not_replayed :
    (∀ (f : Frame) (i1 i2 : ImputationInfo),
      i1.zero_cols = i2.zero_cols → i1.median_cols = i2.median_cols →
      apply_basic_imputation_for_inference f (some i1) =
        apply_basic_imputation_for_inference f (some i2)) ∧
    (∀ (b : Bundle) (f : Frame), "RANK_missing" ∈ b.feature_columns →
      f.selectNumeric.hasCol "RANK_missing" = false →
      (predict_vcvr_from_features b f).X.getVals "RANK_missing" =
        List.replicate f.nrows (some 0)) ∧
    (∀ (b : Bundle) (f : Frame) (ii : ImputationInfo),
      b.imputation_info = some ii →
      "RANK" ∉ ii.zero_cols → (∀ p ∈ ii.median_cols, p.1 ≠ "RANK") →
      "RANK" ∈ b.feature_columns → f.selectNumeric.hasCol "RANK" = true →
      (predict_vcvr_from_features b f).X.getVals "RANK" =
        fillna0 (f.selectNumeric.getVals "RANK")) := by
  refine ⟨?_, ?_, ?_⟩
  · intro f i1 i2 hz hm
    show ((ImputationInfo.median_cols i1).foldl _
        ((ImputationInfo.zero_cols i1).foldl _ f)).fillAll0 =
      ((ImputationInfo.median_cols i2).foldl _
        ((ImputationInfo.zero_cols i2).foldl _ f)).fillAll0
    rw [hz, hm]
  · intro b f hmem hab
    have h2 : (apply_basic_imputation_for_inference f.selectNumeric
        b.imputation_info).hasCol "RANK_missing" = false := by
      rw [hasCol_apply_basic]; exact hab
    show ((apply_basic_imputation_for_inference f.selectNumeric
      b.imputation_info).reindexCols b.feature_columns).getVals "RANK_missing" = _
    rw [getVals_reindexCols_absent _ b.feature_columns "RANK_missing" hmem h2,
      nrows_apply_basic]
    rfl
  · intro b f ii hinfo hz hm hmem hcol
    have h1 : ((ii.zero_cols).foldl
        (fun g c => if g.hasCol c then g.mapColVals c fillna0 else g)
        f.selectNumeric).getVals "RANK" = f.selectNumeric.getVals "RANK" :=
      getVals_zeroFold_not_mem ii.zero_cols f.selectNumeric "RANK" hz
    have hc1 : ((ii.zero_cols).foldl
        (fun g c => if g.hasCol c then g.mapColVals c fillna0 else g)
        f.selectNumeric).hasCol "RANK" = true := by
      rw [hasCol_zeroFold]; exact hcol
    have h2 := getVals_medFold_not_mem ii.median_cols
      ((ii.zero_cols).foldl
        (fun g c => if g.hasCol c then g.mapColVals c fillna0 else g)
        f.selectNumeric) "RANK" hm
    have hc2 : ((ii.median_cols).foldl
        (fun g p => if g.hasCol p.1 then g.mapColVals p.1 (fillnaOpt p.2) else g)
        ((ii.zero_cols).foldl
          (fun g c => if g.hasCol c then g.mapColVals c fillna0 else g)
          f.selectNumeric)).hasCol "RANK" = true := by
      rw [hasCol_medFold]; exact hc1
    have hfim : (apply_basic_imputation_for_inference f.selectNumeric
        (some ii)).getVals "RANK" = fillna0 (f.selectNumeric.getVals "RANK") := by
      show (Frame.fillAll0 _).getVals "RANK" = _
      rw [getVals_fillAll0 _ "RANK" hc2, h2, h1]
    have hcolf : (apply_basic_imputation_for_inference f.selectNumeric
        (some ii)).hasCol "RANK" = true := by
      rw [hasCol_apply_basic]; exact hcol
    show ((apply_basic_imputation_for_inference f.selectNumeric
      b.imputation_info).reindexCols b.feature_columns).getVals "RANK" = _
    rw [hinfo]
    rw [getVals_reindexCols_present _ b.feature_columns "RANK" hmem hcolf, hfim]

/-- C10 witness bundle: frozen columns `RANK`, `RANK_missing`; a plan whose
only content is the sentinel entry for `RANK`. -/
def C10bundle : Bundle :=
  ⟨fun _ => 0, ["RANK", "RANK_missing"], some ⟨[], [], [], [("RANK", -1)]⟩⟩

/-- C10 witness frame: a `RANK` column with a missing value and no
`RANK_missing` indicator. -/
def C10frame : Frame := ⟨2, [⟨"RANK", true, [none, some 5]⟩]⟩

/-- C10 witness: on the concrete bundle and frame, the missing `RANK` value
becomes 0 (not the sentinel −1), the absent indicator is created all-zero,
and the replay output is unchanged when the sentinel entry is removed from
the plan. -/
theorem C10_witness :
    (predict_vcvr_from_features C10bundle C10frame).X.getVals "RANK" =
      [some 0, some 5] ∧
    (predict_vcvr_from_features C10bundle C10frame).X.getVals "RANK_missing" =
      [some 0, some 0] ∧
    apply_basic_imputation_for_inference C10frame (some ⟨[], [], [], [("RANK", -1)]⟩) =
      apply_basic_imputation_for_inference C10frame (some ⟨[], [], [], []⟩) := by
  obtain ⟨hA, hB, hC⟩ := C10_sentinels_not_replayed
  refine ⟨?_, ?_, hA C10frame _ _ rfl rfl⟩
  · rw [hC C10bundle C10frame _ rfl (by decide) (by decide) (by decide) (by decide)]
    decide
  · rw [hB C10bundle C10frame (by decide) (by decide)]
    decide

/-- C8 counterexample input: no `RANK` column (so no sentinel is registered),
but an input column literally named `RANK_missing` that is 100% missing. -/
def C8ds : Frame := ⟨2, [⟨"VCVR", true, [some 1, some 2]⟩,
  ⟨"RANK_missing", true, [none, none]⟩, ⟨"A", true, [some 3, some 4]⟩]⟩

/-- C8 counterexample: on `C8ds` the plan's sentinel set is empty, so
`RANK_missing` is neither a sentinel column nor a sentinel's indicator, and
its missing fraction is 1.0 > 0.40 — by the claim it must be dropped — yet
the code keeps it (the pruning exclusion is by the fixed names
`RANK`/`RANK_missing`, not by sentinel registration). -/
theorem C8_counterexample :
    (clean_and_impute C8ds).map (fun r => r.info.sentinel_cols) = .ok [] ∧
    (clean_and_impute C8ds).map (fun r => r.info.dropped_cols) = .ok [] ∧
    (clean_and_impute C8ds).map (fun r => decide ("RANK_missing" ∈ r.X.names)) =
      .ok true ∧
    (clean_and_impute C8ds).map (fun r => countNone (r.X.getVals "RANK_missing")) =
      .ok 2 := by
  refine ⟨by decide, by decide, by decide, by decide⟩

lemma eq_of_name_eq_of_nodup (l : List Col) (hnd : (l.map Col.name).Nodup)
    (c c2 : Col) (hc : c ∈ l) (hc2 : c2 ∈ l) (hn : c.name = c2.name) : c = c2 := by
  induction l with
  | nil => cases hc
  | cons a l ih =>
    rw [List.map_cons, List.nodup_cons] at hnd
    obtain ⟨ha, hnd2⟩ := hnd
    cases List.mem_cons.mp hc with
    | inl he =>
      cases List.mem_cons.mp hc2 with
      | inl he2 => rw [he, he2]
      | inr hm2 =>
        exfalso
        apply ha
        rw [he] at hn
        rw [hn]
        exact List.mem_map_of_mem Col.name hm2
    | inr hm =>
      cases List.mem_cons.mp hc2 with
      | inl he2 =>
        exfalso
        apply ha
        rw [he2] at hn
        rw [← hn]
        exact List.mem_map_of_mem Col.name hm
      | inr hm2 => exact ih hnd2 hm hm2

lemma pruneList_mem_elim (f : Frame) (n : String) (h : n ∈ pruneList f) :
    ∃ c ∈ f.cols, c.name = n ∧
      ¬(n = TARGET_COL ∨ n = "RANK" ∨ n = "RANK_missing") ∧
      2 * c.vals.length < 5 * countNone c.vals := by
  unfold pruneList at h
  rw [List.mem_filterMap] at h
  obtain ⟨c, hc, hif⟩ := h
  by_cases hA : c.name = TARGET_COL ∨ c.name = "RANK" ∨ c.name = "RANK_missing"
  · rw [if_pos hA] at hif
    cases hif
  · rw [if_neg hA] at hif
    by_cases hB : 2 * c.vals.length < 5 * countNone c.vals
    · rw [if_pos hB] at hif
      have hn := Option.some.inj hif
      rw [hn] at hA
      exact ⟨c, hc, hn, hA, hB⟩
    · rw [if_neg hB] at hif
      cases hif

/-- C8 (amended): during fit, a column of the pruning-stage frame (with
pairwise-distinct column names) is dropped if and only if its name is not the
target and not one of the two fixed protected names `RANK` and `RANK_missing`
— whether or not any sentinel was registered — and its missing fraction
strictly exceeds 0.40 (`2·len < 5·missing`); in particular a column whose
missing fraction exactly equals 0.40 is retained, and the dropped names are
recorded as the plan's dropped_cols. -/
theorem C8_prune_rule : ∀ (df0 : Frame) (r : FitResult),
    clean_and_impute df0 = .ok r →
    r.dfPrune.names.Nodup →
    r.info.dropped_cols = pruneList r.dfPrune ∧
    ∀ c ∈ r.dfPrune.cols,
      (c.name ∈ r.info.dropped_cols ↔
        (¬(c.name = TARGET_COL ∨ c.name = "RANK" ∨ c.name = "RANK_missing") ∧
          2 * c.vals.length < 5 * countNone c.vals)) := by
  intro df0 r h hnd
  rw [fit_ok_iff] at h
  obtain ⟨-, p, -, hr⟩ := h
  subst hr
  refine ⟨rfl, ?_⟩
  intro c hc
  constructor
  · intro hmem
    obtain ⟨c2, hc2, hname2, hnA, hB⟩ := pruneList_mem_elim p.1 c.name hmem
    have hceq : c2 = c := eq_of_name_eq_of_nodup p.1.cols hnd c2 c hc2 hc hname2
    rw [hceq] at hB
    exact ⟨hnA, hB⟩
  · rintro ⟨hA, hB⟩
    push_neg at hA
    obtain ⟨h1, h2, h3⟩ := hA
    exact pruneList_mem_intro p.1 c hc h1 h2 h3 hB

/-- C8 witness input: a column at exactly 40% missing (2 of 5) and one at
60% missing (3 of 5). -/
def C8wds : Frame := ⟨5, [⟨"VCVR", true, [some 1, some 2, some 3, some 4, some 5]⟩,
  ⟨"A", true, [none, none, some 1, some 2, some 3]⟩,
  ⟨"B", true, [none, none, none, some 1, some 2]⟩]⟩

/-- C8 witness: applying the amended rule at `C8wds`, the 60%-missing column
`B` is dropped while the exactly-40%-missing column `A` is retained. -/
theorem C8_witness :
    (clean_and_impute C8wds).map (fun r => decide ("B" ∈ r.info.dropped_cols)) =
      .ok true ∧
    (clean_and_impute C8wds).map (fun r => decide ("A" ∈ r.info.dropped_cols)) =
      .ok false := by
  have hok : (clean_and_impute C8wds).isOk = true := by decide
  cases h : clean_and_impute C8wds with
  | error e => rw [h] at hok; cases hok
  | ok r =>
    have hnd : r.dfPrune.names.Nodup := by
      have hd2 : (clean_and_impute C8wds).map (fun r => decide r.dfPrune.names.Nodup) =
          .ok true := by decide
      rw [h] at hd2
      exact of_decide_eq_true (Except.ok.inj hd2)
    obtain ⟨-, hiff⟩ := C8_prune_rule C8wds r h hnd
    have hcA : (⟨"A", true, [none, none, some 1, some 2, some 3]⟩ : Col) ∈
        r.dfPrune.cols := by
      have hd2 : (clean_and_impute C8wds).map (fun r =>
          decide ((⟨"A", true, [none, none, some 1, some 2, some 3]⟩ : Col) ∈
            r.dfPrune.cols)) = .ok true := by decide
      rw [h] at hd2
      exact of_decide_eq_true (Except.ok.inj hd2)
    have hcB : (⟨"B", true, [none, none, none, some 1, some 2]⟩ : Col) ∈
        r.dfPrune.cols := by
      have hd2 : (clean_and_impute C8wds).map (fun r =>
          decide ((⟨"B", true, [none, none, none, some 1, some 2]⟩ : Col) ∈
            r.dfPrune.cols)) = .ok true := by decide
      rw [h] at hd2
      exact of_decide_eq_true (Except.ok.inj hd2)
    have hB : "B" ∈ r.info.dropped_cols :=
      (hiff _ hcB).mpr ⟨by decide, by decide⟩
    have hA : ¬ "A" ∈ r.info.dropped_cols := fun hmem =>
      absurd ((hiff _ hcA).mp hmem) (by decide)
    constructor
    · show Except.ok (decide ("B" ∈ r.info.dropped_cols)) = Except.ok true
      rw [decide_eq_true hB]
    · show Except.ok (decide ("A" ∈ r.info.dropped_cols)) = Except.ok false
      rw [decide_eq_false hA]

/- ## Sample-weight analysis (C5) -/

lemma fit_WF (df0 : Frame) (r : FitResult) (h : clean_and_impute df0 = .ok r)
    (hwf : df0.WF) : r.dfPrune.WF ∧ r.dfFinal.WF ∧ r.X.WF := by
  rw [fit_ok_iff] at h
  obtain ⟨ht, p, hp, hr⟩ := h
  subst hr
  have hmlen : ((df0.getVals TARGET_COL).map Option.isSome).length = df0.nrows := by
    rw [List.length_map]
    exact getVals_length_of_WF df0 TARGET_COL hwf ht
  have hwf1 : (df0.filterMask ((df0.getVals TARGET_COL).map Option.isSome)).WF :=
    WF_filterMask df0 _ hwf hmlen
  have hwfp : p.1.WF := by
    cases prepStage_ok _ p hp with
    | inl hcase =>
      rw [hcase.2]
      exact hwf1
    | inr hcase =>
      obtain ⟨hrk, hcat, hpe⟩ := hcase
      rw [hpe]
      exact WF_addCatStats _ (WF_rankStage _ hwf1 hrk) hcat
  refine ⟨hwfp, WF_dropCols _ _ hwfp, ?_⟩
  rw [finishFit_X]
  exact WF_imputeFrame _ (WF_selectNumeric _ (WF_dropCols _ _ (WF_dropCols _ _ hwfp)))

/-- One cell of a named column: `none` when the column itself is absent,
`some none` when the column is present but the value is missing. -/
def cellAt (f : Frame) (n : String) (i : ℕ) : Option Val :=
  (f.getCol? n).map fun c => c.vals.getD i none

/-- The origin multiplier as the claim words it: 2.0 when the internal flag
(with missing flag values treated as 0) is set, 1.0 otherwise; 1.0 when the
flag column is absent. -/
def claimMult (flag : Option Val) : ℚ :=
  match flag with
  | none => 1
  | some v => if v.getD 0 = 0 then 1 else 2

/-- Spec-side per-row weight, following the claim's words as amended: with a
volume value v present, the weight is √(clamp(v,1,1000)) times the
multiplier; with the volume column absent, the base is uniform (radicand 1);
a row whose volume value is itself missing gets a missing weight. -/
def claimWeight (volume : Option Val) (flag : Option Val) : Option WeightTerm :=
  match volume with
  | none => some ⟨1, claimMult flag⟩
  | some none => none
  | some (some v) => some ⟨min (max v 1) 1000, claimMult flag⟩

lemma zipWith_getD {α β γ : Type} (f : α → β → γ) (l1 : List α) (l2 : List β)
    (i : ℕ) (d1 : α) (d2 : β) (d : γ) (h1 : i < l1.length) (h2 : i < l2.length) :
    (List.zipWith f l1 l2).getD i d = f (l1.getD i d1) (l2.getD i d2) := by
  induction l1 generalizing l2 i with
  | nil => simp at h1
  | cons a l1 ih =>
    cases l2 with
    | nil => simp at h2
    | cons b l2 =>
      cases i with
      | zero => rfl
      | succ j =>
        show (List.zipWith f l1 l2).getD j d = f (l1.getD j d1) (l2.getD j d2)
        exact ih l2 j (by simpa using h1) (by simpa using h2)

lemma map_getD2 {α β : Type} (g : α → β) (l : List α) (i : ℕ) (d1 : α) (d : β)
    (h : i < l.length) : (l.map g).getD i d = g (l.getD i d1) := by
  induction l generalizing i with
  | nil => simp at h
  | cons a l ih =>
    cases i with
    | zero => rfl
    | succ j =>
      show (l.map g).getD j d = g (l.getD j d1)
      exact ih j (by simpa using h)

lemma replicate_getD {α : Type} (n : ℕ) (a : α) (i : ℕ) (d : α) (h : i < n) :
    (List.replicate n a).getD i d = a := by
  induction n generalizing i with
  | zero => cases h
  | succ k ih =>
    rw [List.replicate_succ]
    cases i with
    | zero => rfl
    | succ j =>
      show (List.replicate k a).getD j d = a
      exact ih j (by omega)

lemma weightsOf_length (df3 : Frame) (hwf : df3.WF) :
    (weightsOf df3).length = df3.nrows := by
  unfold weightsOf
  rw [List.length_zipWith]
  by_cases hc : df3.hasCol "Clicks" = true
  · rw [if_pos hc, List.length_map, getVals_length_of_WF df3 "Clicks" hwf hc]
    by_cases hf : df3.hasCol INTERNAL_FLAG_COL = true
    · rw [if_pos hf, List.length_map,
        getVals_length_of_WF df3 INTERNAL_FLAG_COL hwf hf, Nat.min_self]
    · rw [if_neg hf, List.length_replicate, Nat.min_self]
  · rw [if_neg hc, List.length_replicate]
    by_cases hf : df3.hasCol INTERNAL_FLAG_COL = true
    · rw [if_pos hf, List.length_map,
        getVals_length_of_WF df3 INTERNAL_FLAG_COL hwf hf, Nat.min_self]
    · rw [if_neg hf, List.length_replicate, Nat.min_self]

lemma weightsOf_spec (df3 : Frame) (hwf : df3.WF) (i : ℕ) (hi : i < df3.nrows) :
    (weightsOf df3).getD i none =
      claimWeight (cellAt df3 "Clicks" i) (cellAt df3 INTERNAL_FLAG_COL i) := by
  have hmult : (if df3.hasCol INTERNAL_FLAG_COL then
        (df3.getVals INTERNAL_FLAG_COL).map fun v => if v.getD 0 = 0 then (1 : ℚ) else 2
      else List.replicate df3.nrows 1).getD i 1 =
      claimMult (cellAt df3 INTERNAL_FLAG_COL i) := by
    unfold cellAt
    by_cases hf : df3.hasCol INTERNAL_FLAG_COL = true
    · rw [if_pos hf]
      have hlen : i < (df3.getVals INTERNAL_FLAG_COL).length := by
        rw [getVals_length_of_WF df3 INTERNAL_FLAG_COL hwf hf]
        exact hi
      rw [map_getD2 _ _ i none 1 hlen]
      unfold Frame.getVals
      unfold Frame.hasCol at hf
      cases hgc : df3.getCol? INTERNAL_FLAG_COL with
      | none => rw [hgc] at hf; simp at hf
      | some c => rfl
    · rw [if_neg hf, replicate_getD df3.nrows 1 i 1 hi]
      unfold Frame.hasCol at hf
      cases hgc : df3.getCol? INTERNAL_FLAG_COL with
      | some c => rw [hgc] at hf; simp at hf
      | none => rfl
  have hlenm : i < (if df3.hasCol INTERNAL_FLAG_COL then
      (df3.getVals INTERNAL_FLAG_COL).map fun v => if v.getD 0 = 0 then (1 : ℚ) else 2
    else List.replicate df3.nrows 1).length := by
    by_cases hf : df3.hasCol INTERNAL_FLAG_COL = true
    · rw [if_pos hf, List.length_map,
        getVals_length_of_WF df3 INTERNAL_FLAG_COL hwf hf]
      exact hi
    · rw [if_neg hf, List.length_replicate]
      exact hi
  unfold weightsOf
  by_cases hc : df3.hasCol "Clicks" = true
  · have hlen : i < (df3.getVals "Clicks").length := by
      rw [getVals_length_of_WF df3 "Clicks" hwf hc]
      exact hi
    have hlen2 : i < ((df3.getVals "Clicks").map
        (Option.map fun x => min (max x 1) 1000)).length := by
      rw [List.length_map]
      exact hlen
    rw [if_pos hc, zipWith_getD _ _ _ i none 1 none hlen2 hlenm, hmult,
      map_getD2 _ _ i none none hlen]
    unfold cellAt claimWeight Frame.getVals
    unfold Frame.hasCol at hc
    cases hgc : df3.getCol? "Clicks" with
    | none => rw [hgc] at hc; simp at hc
    | some c =>
      simp only [Option.map_some']
      cases c.vals.getD i none with
      | none => rfl
      | some v => rfl
  · rw [if_neg hc,
      zipWith_getD _ _ _ i (some 1) 1 none (by rw [List.length_replicate]; exact hi) hlenm,
      replicate_getD df3.nrows (some 1) i (some 1) hi, hmult]
    unfold cellAt claimWeight
    unfold Frame.hasCol at hc
    cases hgc : df3.getCol? "Clicks" with
    | some c => rw [hgc] at hc; simp at hc
    | none => rfl

lemma zipWith_mem {α β γ : Type} (f : α → β → γ) (l1 : List α) (l2 : List β)
    (c : γ) (h : c ∈ List.zipWith f l1 l2) : ∃ a ∈ l1, ∃ b ∈ l2, c = f a b := by
  induction l1 generalizing l2 with
  | nil => simp at h
  | cons a l1 ih =>
    cases l2 with
    | nil => simp at h
    | cons b l2 =>
      rw [List.zipWith_cons_cons] at h
      cases List.mem_cons.mp h with
      | inl he => exact ⟨a, List.mem_cons_self _ _, b, List.mem_cons_self _ _, he⟩
      | inr hm =>
        obtain ⟨a2, ha2, b2, hb2, hc2⟩ := ih l2 hm
        exact ⟨a2, List.mem_cons_of_mem _ ha2, b2, List.mem_cons_of_mem _ hb2, hc2⟩

lemma weightsOf_bounds (df3 : Frame) : ∀ w ∈ weightsOf df3, ∀ t, w = some t →
    1 ≤ t.radicand ∧ t.radicand ≤ 1000 ∧ (t.mult = 1 ∨ t.mult = 2) := by
  intro w hw t hwt
  unfold weightsOf at hw
  obtain ⟨b, hb, m, hm, hc⟩ := zipWith_mem _ _ _ w hw
  have hmval : m = 1 ∨ m = 2 := by
    by_cases hf : df3.hasCol INTERNAL_FLAG_COL = true
    · rw [if_pos hf] at hm
      rw [List.mem_map] at hm
      obtain ⟨v, -, hveq⟩ := hm
      by_cases hv : v.getD 0 = 0
      · left; rw [← hveq, if_pos hv]
      · right; rw [← hveq, if_neg hv]
    · rw [if_neg hf] at hm
      left
      exact (List.eq_of_mem_replicate hm)
  have hbval : b = none ∨ b = some 1 ∨ ∃ x : ℚ, b = some (min (max x 1) 1000) := by
    by_cases hcc : df3.hasCol "Clicks" = true
    · rw [if_pos hcc] at hb
      rw [List.mem_map] at hb
      obtain ⟨v, -, hveq⟩ := hb
      cases v with
      | none => left; rw [← hveq]; rfl
      | some x =>
        right; right
        exact ⟨x, by rw [← hveq]; rfl⟩
    · rw [if_neg hcc] at hb
      right; left
      exact List.eq_of_mem_replicate hb
  rw [hc] at hwt
  cases hbval with
  | inl hbn => rw [hbn] at hwt; cases hwt
  | inr hbv =>
    cases hbv with
    | inl hb1 =>
      rw [hb1] at hwt
      have ht : t = ⟨1, m⟩ := (Option.some.inj hwt).symm
      rw [ht]
      refine ⟨le_refl 1, by norm_num, hmval⟩
    | inr hbx =>
      obtain ⟨x, hbx2⟩ := hbx
      rw [hbx2] at hwt
      have ht : t = ⟨min (max x 1) 1000, m⟩ := (Option.some.inj hwt).symm
      rw [ht]
      refine ⟨le_min (le_max_right x 1) (by norm_num), min_le_right _ _, hmval⟩

lemma weightTerm_val_nonneg (t : WeightTerm) (hm : t.mult = 1 ∨ t.mult = 2) :
    0 ≤ t.val := by
  unfold WeightTerm.val
  apply mul_nonneg (Real.sqrt_nonneg _)
  cases hm with
  | inl h1 => rw [h1]; norm_num
  | inr h2 => rw [h2]; norm_num

/-- C5 counterexample input: `Clicks` present with one missing value (kept:
its missing fraction 1/3 is below the drop threshold), the internal flag
present. -/
def C5ds : Frame := ⟨3, [⟨"VCVR", true, [some 1, some 1, some 1]⟩,
  ⟨"Clicks", true, [some 4, none, some 2000]⟩,
  ⟨"IsInternal", true, [some 0, some 0, some 1]⟩]⟩

/-- C5 counterexample: the row whose Clicks value is missing gets a MISSING
(NaN) sample weight — `clip` and `sqrt` propagate NaN — contradicting the
claim that the weight vector is never missing.  (The two non-missing rows
show the clamp: 4 → radicand 4 with multiplier 1, and 2000 → radicand 1000
with multiplier 2.) -/
theorem C5_counterexample :
    (clean_and_impute C5ds).map (fun r => r.weights) =
      .ok [some ⟨4, 1⟩, none, some ⟨1000, 2⟩] ∧
    (clean_and_impute C5ds).map (fun r => decide (none ∈ r.weights)) = .ok true := by
  refine ⟨by decide, by decide⟩

/-- C5 (amended): for every well-formed dataset accepted by fit, the sample
weight vector is length-aligned with the prepared matrix; each row's weight
follows the claimed formula √(clamp(volume,1,1000)) × (2.0 if the internal
flag is set else 1.0), with uniform base (radicand 1) when the volume column
is absent and multiplier 1.0 when the flag column is absent — EXCEPT that a
row whose volume value is itself missing gets a missing (NaN) weight; every
non-missing weight has radicand in [1, 1000], multiplier 1 or 2, and a
non-negative real value. -/
theorem C5_sample_weights : ∀ (df0 : Frame) (r : FitResult),
    clean_and_impute df0 = .ok r → df0.WF →
    r.weights.length = r.X.nrows ∧
    (∀ i, i < r.weights.length →
      r.weights.getD i none =
        claimWeight (cellAt r.dfFinal "Clicks" i) (cellAt r.dfFinal INTERNAL_FLAG_COL i)) ∧
    (∀ w ∈ r.weights, ∀ t, w = some t →
      1 ≤ t.radicand ∧ t.radicand ≤ 1000 ∧ (t.mult = 1 ∨ t.mult = 2) ∧ 0 ≤ t.val) := by
  intro df0 r h hwf
  have hfin : r.dfFinal.WF := (fit_WF df0 r h hwf).2.1
  rw [fit_ok_iff] at h
  obtain ⟨-, p, -, hr⟩ := h
  subst hr
  have hlen : (weightsOf (p.1.dropCols (pruneList p.1))).length =
      (p.1.dropCols (pruneList p.1)).nrows :=
    weightsOf_length _ hfin
  refine ⟨hlen, ?_, ?_⟩
  · intro i hi
    exact weightsOf_spec (p.1.dropCols (pruneList p.1)) hfin i (by rw [← hlen]; exact hi)
  · intro w hw t hwt
    obtain ⟨h1, h2, h3⟩ := weightsOf_bounds (p.1.dropCols (pruneList p.1)) w hw t hwt
    exact ⟨h1, h2, h3, weightTerm_val_nonneg t h3⟩

/-- C5 witness input: the claim's concrete rows — volume 2000 with the
internal flag set, volume 0 without it, and a row with a missing flag. -/
def C5wds : Frame := ⟨3, [⟨"VCVR", true, [some 1, some 1, some 1]⟩,
  ⟨"Clicks", true, [some 2000, some 0, some 4]⟩,
  ⟨"IsInternal", true, [some 1, some 0, none]⟩]⟩

/-- C5 witness: the amended theorem applied at `C5wds` — volume 2000 with
internal=true gives the weight √1000 × 2.0, and volume 0 gives √1 × 1.0
(the clamped floor). -/
theorem C5_witness :
    (clean_and_impute C5wds).map (fun r => r.weights.getD 0 none) =
      .ok (some ⟨1000, 2⟩) ∧
    (clean_and_impute C5wds).map (fun r => r.weights.getD 1 none) =
      .ok (some ⟨1, 1⟩) ∧
    WeightTerm.val ⟨1000, 2⟩ = Real.sqrt 1000 * 2 ∧
    WeightTerm.val ⟨1, 1⟩ = 1 := by
  have hok : (clean_and_impute C5wds).isOk = true := by decide
  cases h : clean_and_impute C5wds with
  | error e => rw [h] at hok; cases hok
  | ok r =>
    obtain ⟨hlen, hspec, -⟩ := C5_sample_weights C5wds r h (by decide)
    have hn : r.weights.length = 3 := by
      have hd : (clean_and_impute C5wds).map (fun r => r.weights.length) = .ok 3 := by
        decide
      rw [h] at hd
      exact Except.ok.inj hd
    have hcell0 : cellAt r.dfFinal "Clicks" 0 = some (some 2000) := by
      have hd : (clean_and_impute C5wds).map
          (fun r => decide (cellAt r.dfFinal "Clicks" 0 = some (some 2000))) =
          .ok true := by decide
      rw [h] at hd
      exact of_decide_eq_true (Except.ok.inj hd)
    have hflag0 : cellAt r.dfFinal INTERNAL_FLAG_COL 0 = some (some 1) := by
      have hd : (clean_and_impute C5wds).map
          (fun r => decide (cellAt r.dfFinal INTERNAL_FLAG_COL 0 = some (some 1))) =
          .ok true := by decide
      rw [h] at hd
      exact of_decide_eq_true (Except.ok.inj hd)
    have hcell1 : cellAt r.dfFinal "Clicks" 1 = some (some 0) := by
      have hd : (clean_and_impute C5wds).map
          (fun r => decide (cellAt r.dfFinal "Clicks" 1 = some (some 0))) =
          .ok true := by decide
      rw [h] at hd
      exact of_decide_eq_true (Except.ok.inj hd)
    have hflag1 : cellAt r.dfFinal INTERNAL_FLAG_COL 1 = some (some 0) := by
      have hd : (clean_and_impute C5wds).map
          (fun r => decide (cellAt r.dfFinal INTERNAL_FLAG_COL 1 = some (some 0))) =
          .ok true := by decide
      rw [h] at hd
      exact of_decide_eq_true (Except.ok.inj hd)
    have h0 := hspec 0 (by rw [hn]; norm_num)
    rw [hcell0, hflag0] at h0
    have h0v : r.weights.getD 0 none = some ⟨1000, 2⟩ := by
      rw [h0]
      decide
    have h1 := hspec 1 (by rw [hn]; norm_num)
    rw [hcell1, hflag1] at h1
    have h1v : r.weights.getD 1 none = some ⟨1, 1⟩ := by
      rw [h1]
      decide
    refine ⟨?_, ?_, by norm_num [WeightTerm.val], by simp [WeightTerm.val]⟩
    · show Except.ok (r.weights.getD 0 none) = Except.ok (some ⟨1000, 2⟩)
      rw [h0v]
    · show Except.ok (r.weights.getD 1 none) = Except.ok (some ⟨1, 1⟩)
      rw [h1v]

/- ## RANK sentinel handling (C9) -/

lemma getCol?_mapColVals_other (f : Frame) (n m : String) (g : List Val → List Val)
    (h : m ≠ n) : (f.mapColVals n g).getCol? m = f.getCol? m := by
  rw [getCol?_mapColVals]
  cases hc : f.getCol? m with
  | none => rfl
  | some c =>
    have hn : c.name = m := getCol?_name f m c hc
    rw [Option.map_some']
    rw [if_neg (by rw [hn]; exact h)]

lemma contains_eq_false_of_not_mem (l : List String) (a : String) (h : a ∉ l) :
    l.contains a = false := by
  cases hc : l.contains a with
  | false => rfl
  | true =>
    exfalso
    apply h
    exact List.mem_of_elem_eq_true hc

lemma getVals_eq_of_getCol?_eq (f g : Frame) (m : String)
    (h : f.getCol? m = g.getCol? m) : f.getVals m = g.getVals m := by
  unfold Frame.getVals
  rw [h]

lemma getCol?_addCatStats_other (f : Frame) (m : String) (h1 : m ≠ "cat_mean_vcvr")
    (h2 : m ≠ "cat_median_vcvr") (h3 : m ≠ "cat_count") :
    (addCatStats f).getCol? m = f.getCol? m := by
  unfold addCatStats
  rw [getCol?_setCol_other _ _ _ _ _ h3, getCol?_setCol_other _ _ _ _ _ h2,
    getCol?_setCol_other _ _ _ _ _ h1]

lemma getCol?_rankStage_rankMissing (f : Frame) : (rankStage f).getCol? "RANK_missing" =
    some ⟨"RANK_missing", true,
      (f.getVals "RANK").map fun v => some (if v.isNone then 1 else 0)⟩ := by
  unfold rankStage
  rw [getCol?_mapColVals_other _ "RANK" "RANK_missing" _ (by decide),
    getCol?_setCol_self]

lemma getVals_rankStage_rank (f : Frame) (h : f.hasCol "RANK" = true) :
    (rankStage f).getVals "RANK" =
      (f.getVals "RANK").map fun v => some (v.getD (-1)) := by
  unfold rankStage
  have hs : (f.setCol "RANK_missing" true
      ((f.getVals "RANK").map fun v => some (if v.isNone then 1 else 0))).hasCol
        "RANK" = true := by
    rw [hasCol_setCol_other _ _ _ _ _ (by decide)]
    exact h
  rw [getVals_mapColVals_self _ "RANK" _ hs,
    getVals_setCol_other _ _ _ _ _ (by decide)]

lemma rank_not_mem_pruneList (f : Frame) :
    "RANK" ∉ pruneList f ∧ "RANK_missing" ∉ pruneList f := by
  constructor <;> intro h <;>
    obtain ⟨c, -, -, hnA, -⟩ := pruneList_mem_elim f _ h <;> simp at hnA

lemma getCol?_dropPrune (f : Frame) (m : String) (hm : m ∉ pruneList f) :
    (f.dropCols (pruneList f)).getCol? m = f.getCol? m :=
  getCol?_dropCols_not_mem f _ m (contains_eq_false_of_not_mem _ _ hm)

lemma colNeedsImpute_special (c : Col)
    (h : c.name = "RANK" ∨ c.name = "RANK_missing") : colNeedsImpute c = false := by
  unfold colNeedsImpute
  cases h with
  | inl h1 => simp [h1]
  | inr h2 => simp [h2]

lemma imputeCol_special (c : Col) (h : c.name = "RANK" ∨ c.name = "RANK_missing") :
    imputeCol c = c := by
  unfold imputeCol
  rw [colNeedsImpute_special c h]
  simp

lemma zeroColsOf_mem_elim (f : Frame) (n : String) (h : n ∈ zeroColsOf f) :
    ∃ c ∈ f.cols, c.name = n ∧ colNeedsImpute c = true := by
  unfold zeroColsOf at h
  rw [List.mem_filterMap] at h
  obtain ⟨c, hc, hif⟩ := h
  by_cases hcond : (colNeedsImpute c && nameLooksZeroFill c.name) = true
  · rw [if_pos hcond] at hif
    rw [Bool.and_eq_true] at hcond
    exact ⟨c, hc, Option.some.inj hif, hcond.1⟩
  · rw [if_neg hcond] at hif
    cases hif

lemma medianColsOf_mem_elim (f : Frame) (q : String × Option ℚ)
    (h : q ∈ medianColsOf f) :
    ∃ c ∈ f.cols, c.name = q.1 ∧ colNeedsImpute c = true := by
  unfold medianColsOf at h
  rw [List.mem_filterMap] at h
  obtain ⟨c, hc, hif⟩ := h
  by_cases hcond : (colNeedsImpute c && !nameLooksZeroFill c.name) = true
  · rw [if_pos hcond] at hif
    have he := Option.some.inj hif
    rw [Bool.and_eq_true] at hcond
    refine ⟨c, hc, ?_, hcond.1⟩
    rw [← he]
  · rw [if_neg hcond] at hif
    cases hif

/-- C9 counterexample input: `RANK` present, `Category` absent. -/
def C9bad : Frame := ⟨1, [⟨"VCVR", true, [some 1]⟩, ⟨"RANK", true, [some 3]⟩]⟩

/-- C9 counterexample: a dataset with `RANK` present but no `Category` column
makes fit crash on the unbound `cat_stats` before any plan is produced, so
the claim's "for every dataset in which RANK is present" does not hold
unconditionally. -/
theorem C9_counterexample : clean_and_impute C9bad = .error .catStatsUnbound := by
  decide

/-- C9 (amended): for every dataset with a `RANK` column on which fit
completes, fit creates the `RANK_missing` indicator valued 1 exactly on the
kept rows whose `RANK` was originally missing (0 otherwise), replaces every
missing `RANK` value with the sentinel −1, records `("RANK", −1)` as the only
sentinel entry, excludes both `RANK` and `RANK_missing` from generic
zero/median imputation, and every sentinel column in the resulting plan has
its paired missing-indicator column in the prepared matrix. -/
theorem C9_rank_sentinel_handling : ∀ (df0 : Frame) (r : FitResult),
    clean_and_impute df0 = .ok r → df0.hasCol "RANK" = true →
    r.info.sentinel_cols = [("RANK", -1)] ∧
    r.X.getVals "RANK_missing" =
      (maskFilter (df0.getVals "RANK")
        ((df0.getVals TARGET_COL).map Option.isSome)).map
          (fun v => some (if v.isNone then 1 else 0)) ∧
    "RANK_missing" ∈ r.X.names ∧
    r.dfFinal.getVals "RANK" =
      (maskFilter (df0.getVals "RANK")
        ((df0.getVals TARGET_COL).map Option.isSome)).map
          (fun v => some (v.getD (-1))) ∧
    ("RANK" ∉ r.info.zero_cols ∧ (∀ q ∈ r.info.median_cols, q.1 ≠ "RANK") ∧
      "RANK_missing" ∉ r.info.zero_cols ∧
      (∀ q ∈ r.info.median_cols, q.1 ≠ "RANK_missing")) ∧
    (∀ q ∈ r.info.sentinel_cols, (q.1 ++ "_missing") ∈ r.X.names) := by
  intro df0 r h hrank
  rw [fit_ok_iff] at h
  obtain ⟨ht, p, hp, hr⟩ := h
  subst hr
  have hr1 : (df0.filterMask ((df0.getVals TARGET_COL).map Option.isSome)).hasCol
      "RANK" = true := by
    rw [hasCol_filterMask]
    exact hrank
  cases prepStage_ok _ p hp with
  | inl hcase =>
    rw [hcase.1] at hr1
    exact Bool.noConfusion hr1
  | inr hcase =>
    obtain ⟨-, -, hpe⟩ := hcase
    have hp1 : p.1 = addCatStats (rankStage
        (df0.filterMask ((df0.getVals TARGET_COL).map Option.isSome))) := by
      rw [hpe]
    have hp2 : p.2 = [("RANK", -1)] := by
      rw [hpe]
    rw [hp1, hp2, finishFit_X, finishFit_dfFinal, finishFit_info]
    set df1 := df0.filterMask ((df0.getVals TARGET_COL).map Option.isSome) with hdf1def
    set df2 := addCatStats (rankStage df1) with hdf2def
    set fdf := ((df2.dropCols (pruneList df2)).dropCols
      (ID_COLS ++ [TARGET_COL])).selectNumeric with hfdfdef
    have hdf1rank : df1.getVals "RANK" =
        maskFilter (df0.getVals "RANK") ((df0.getVals TARGET_COL).map Option.isSome) :=
      getVals_filterMask df0 "RANK" _ hrank
    have hrm_df2 : df2.getCol? "RANK_missing" = some ⟨"RANK_missing", true,
        (df1.getVals "RANK").map fun v => some (if v.isNone then 1 else 0)⟩ := by
      rw [hdf2def, getCol?_addCatStats_other _ _ (by decide) (by decide) (by decide),
        getCol?_rankStage_rankMissing]
    have hrm_df3 : (df2.dropCols (pruneList df2)).getCol? "RANK_missing" =
        some ⟨"RANK_missing", true,
          (df1.getVals "RANK").map fun v => some (if v.isNone then 1 else 0)⟩ := by
      rw [getCol?_dropPrune df2 _ (rank_not_mem_pruneList df2).2, hrm_df2]
    have hrm_ids : ((df2.dropCols (pruneList df2)).dropCols
        (ID_COLS ++ [TARGET_COL])).getCol? "RANK_missing" =
        some ⟨"RANK_missing", true,
          (df1.getVals "RANK").map fun v => some (if v.isNone then 1 else 0)⟩ := by
      rw [getCol?_dropCols_not_mem _ _ _ (by decide), hrm_df3]
    have hrm_fdf : fdf.getCol? "RANK_missing" =
        some ⟨"RANK_missing", true,
          (df1.getVals "RANK").map fun v => some (if v.isNone then 1 else 0)⟩ := by
      rw [hfdfdef]
      exact getCol?_selectNumeric_of_numeric _ _ _ hrm_ids rfl
    have hrm_X : (imputeFrame fdf).getCol? "RANK_missing" =
        some ⟨"RANK_missing", true,
          (df1.getVals "RANK").map fun v => some (if v.isNone then 1 else 0)⟩ := by
      rw [getCol?_imputeFrame, hrm_fdf, Option.map_some',
        imputeCol_special _ (Or.inr rfl)]
    have hXvals : (imputeFrame fdf).getVals "RANK_missing" =
        (df1.getVals "RANK").map fun v => some (if v.isNone then 1 else 0) := by
      unfold Frame.getVals
      rw [hrm_X]
      rfl
    have hXmem : "RANK_missing" ∈ (imputeFrame fdf).names :=
      mem_names_of_getCol? _ _ _ hrm_X
    have hrank_dfb : (rankStage df1).getVals "RANK" =
        (df1.getVals "RANK").map fun v => some (v.getD (-1)) :=
      getVals_rankStage_rank df1 hr1
    have hrank_df2 : df2.getVals "RANK" = (rankStage df1).getVals "RANK" := by
      rw [hdf2def]
      exact getVals_eq_of_getCol?_eq _ _ _
        (getCol?_addCatStats_other _ _ (by decide) (by decide) (by decide))
    have hrank_df3 : (df2.dropCols (pruneList df2)).getVals "RANK" =
        df2.getVals "RANK" :=
      getVals_eq_of_getCol?_eq _ _ _
        (getCol?_dropPrune df2 _ (rank_not_mem_pruneList df2).1)
    refine ⟨rfl, ?_, hXmem, ?_, ⟨?_, ?_, ?_, ?_⟩, ?_⟩
    · rw [hXvals, hdf1rank]
    · rw [hrank_df3, hrank_df2, hrank_dfb, hdf1rank]
    · intro hmem
      obtain ⟨c, -, hname, hni⟩ := zeroColsOf_mem_elim fdf "RANK" hmem
      rw [colNeedsImpute_special c (Or.inl hname)] at hni
      exact Bool.noConfusion hni
    · intro q hq he
      obtain ⟨c, -, hname, hni⟩ := medianColsOf_mem_elim fdf q hq
      rw [colNeedsImpute_special c (Or.inl (by rw [hname, he]))] at hni
      exact Bool.noConfusion hni
    · intro hmem
      obtain ⟨c, -, hname, hni⟩ := zeroColsOf_mem_elim fdf "RANK_missing" hmem
      rw [colNeedsImpute_special c (Or.inr hname)] at hni
      exact Bool.noConfusion hni
    · intro q hq he
      obtain ⟨c, -, hname, hni⟩ := medianColsOf_mem_elim fdf q hq
      rw [colNeedsImpute_special c (Or.inr (by rw [hname, he]))] at hni
      exact Bool.noConfusion hni
    · intro q hq
      have hqe : q = ("RANK", -1) := List.mem_singleton.mp hq
      rw [hqe]
      exact hXmem

/-- C9 witness input: three rows, one with a missing target (dropped), `RANK`
missing on one kept row, `Category` present so fit completes. -/
def C9wds : Frame := ⟨3, [⟨"VCVR", true, [some 1, some 2, none]⟩,
  ⟨"RANK", true, [some 7, none, some 9]⟩,
  ⟨"Category", false, [some 1, some 1, some 2]⟩]⟩

/-- C9 witness: the amended theorem applied at `C9wds` — the sentinel entry is
recorded, the indicator flags exactly the kept row whose RANK was missing,
and the missing RANK value becomes −1. -/
theorem C9_witness :
    (clean_and_impute C9wds).map (fun r => r.info.sentinel_cols) =
      .ok [("RANK", -1)] ∧
    (clean_and_impute C9wds).map (fun r => r.X.getVals "RANK_missing") =
      .ok [some 0, some 1] ∧
    (clean_and_impute C9wds).map (fun r => r.dfFinal.getVals "RANK") =
      .ok [some 7, some (-1)] := by
  have hok : (clean_and_impute C9wds).isOk = true := by decide
  cases h : clean_and_impute C9wds with
  | error e => rw [h] at hok; cases hok
  | ok r =>
    obtain ⟨h1, h2, -, h4, -, -⟩ := C9_rank_sentinel_handling C9wds r h (by decide)
    refine ⟨?_, ?_, ?_⟩
    · show Except.ok r.info.sentinel_cols = Except.ok [("RANK", -1)]
      rw [h1]
    · show Except.ok (r.X.getVals "RANK_missing") = Except.ok [some 0, some 1]
      rw [h2]
      decide
    · show Except.ok (r.dfFinal.getVals "RANK") = Except.ok [some 7, some (-1)]
      rw [h4]
      decide
